import Mathlib

/-!
Verification of the P-chain unsigned-transaction builder: the output-owner
matcher, the two-pass UTXO spend planner, the subnet authorization resolver
and the seven transaction assemblers, shallowly embedded from the Go source
(`package p`, file with `builder.spend`, `builder.match`, `builder.New*Tx`).
Machine integers (uint64) are modelled as `Nat`; the one place the source
performs checked addition (`math.Add64`) is modelled by `add64`, which fails
with an overflow error above `2^64 - 1` exactly as the source does.
-/

namespace PChain

abbrev AssetID := Nat
abbrev Addr := Nat

/-- secp256k1fx.OutputOwners: a threshold-of-N authorization with a lock time. -/
structure OutputOwners where
  locktime : Nat
  threshold : Nat
  addrs : List Addr
deriving DecidableEq, Repr

/-- djtx.UTXOID: (source transaction id, output index). -/
structure UTXOID where
  txID : Nat
  outputIndex : Nat
deriving DecidableEq, Repr

/-- The payload wrapped by a platformvm.StakeableLockOut: either a recognized
secp256k1fx.TransferOutput or some unrecognized implementation of the
TransferableOut interface. -/
inductive InnerOut where
  | transfer (amt : Nat) (owners : OutputOwners)
  | unknown
deriving DecidableEq, Repr

/-- The dynamic type of a UTXO's output payload: a plain
secp256k1fx.TransferOutput, a platformvm.StakeableLockOut wrapper, or some
unrecognized implementation of the output interface. -/
inductive UTXOOut where
  | transfer (amt : Nat) (owners : OutputOwners)
  | stakeableLock (locktime : Nat) (inner : InnerOut)
  | unknown
deriving DecidableEq, Repr

/-- djtx.UTXO restricted to the fields the builder reads. -/
structure UTXO where
  utxoID : UTXOID
  assetID : AssetID
  out : UTXOOut
deriving DecidableEq, Repr

/-- The `In` field of a djtx.TransferableInput: either a plain
secp256k1fx.TransferInput or a platformvm.StakeableLockIn wrapper. -/
inductive InKind where
  | transfer (amt : Nat) (sigIndices : List Nat)
  | stakeableLock (locktime : Nat) (amt : Nat) (sigIndices : List Nat)
deriving DecidableEq, Repr

structure TransferableInput where
  utxoID : UTXOID
  assetID : AssetID
  inp : InKind
deriving DecidableEq, Repr

/-- The `Out` field of a djtx.TransferableOutput: either a plain
secp256k1fx.TransferOutput or a platformvm.StakeableLockOut wrapper. -/
inductive OutKind where
  | transfer (amt : Nat) (owners : OutputOwners)
  | stakeableLock (locktime : Nat) (amt : Nat) (owners : OutputOwners)
deriving DecidableEq, Repr

structure TransferableOutput where
  assetID : AssetID
  out : OutKind
deriving DecidableEq, Repr

def InKind.amount : InKind → Nat
  | .transfer amt _ => amt
  | .stakeableLock _ amt _ => amt

def OutKind.amount : OutKind → Nat
  | .transfer amt _ => amt
  | .stakeableLock _ amt _ => amt

/-! ### uint64 checked addition (utils/math.Add64) -/

def U64MAX : Nat := 2 ^ 64 - 1

inductive BuildError where
  | noChangeAddress
  | wrongTxType
  | unknownOwnerType
  | insufficientAuthorization
  | insufficientFundsStake (assetID : AssetID) (amount : Nat)
  | insufficientFundsBurn (assetID : AssetID) (amount : Nat)
  | insufficientFundsNoImportUTXOs
  | unknownOutputType
  | txLookupFailed
  | addOverflow
deriving DecidableEq, Repr

/-- math.Add64: checked uint64 addition, error on overflow instead of wrap. -/
def add64 (a b : Nat) : Except BuildError Nat :=
  if a + b ≤ U64MAX then .ok (a + b) else .error .addOverflow

/-! ### Go maps assetID → uint64, as association lists.

Reading an absent key yields 0 (Go zero value); `m[k] -= d` writes the key
back, so a key touched by the spend loops becomes present (possibly with
value 0), which is what the termination check iterates over. -/

abbrev AmountMap := List (AssetID × Nat)

def mapGet : AmountMap → AssetID → Nat
  | [], _ => 0
  | p :: rest, k => if p.1 = k then p.2 else mapGet rest k

def mapSet : AmountMap → AssetID → Nat → AmountMap
  | [], k, v => [(k, v)]
  | p :: rest, k, v => if p.1 = k then (k, v) :: rest else p :: mapSet rest k v

/-- The first map entry holding a nonzero amount, mirroring the termination
check's range-over-map loop (iteration order modelled as list order). -/
def firstNonzero : AmountMap → Option (AssetID × Nat)
  | [] => none
  | p :: rest => if p.2 = 0 then firstNonzero rest else some p

/-! ### Backend, options, builder -/

/-- The owner field of a resolved UnsignedCreateSubnetTx: a recognized
secp256k1fx.OutputOwners or some unrecognized owner implementation. -/
inductive SubnetOwnerField where
  | secpOwners (o : OutputOwners)
  | unknownOwner
deriving DecidableEq, Repr

/-- The unsigned transaction resolved by GetTx, as far as authorizeSubnet
inspects it: an UnsignedCreateSubnetTx or any other transaction type. -/
inductive LookedUpTx where
  | createSubnetTx (owner : SubnetOwnerField)
  | otherTx
deriving DecidableEq, Repr

/-- constants.PlatformChainID (the all-zero id). -/
def platformChainID : Nat := 0

/-- BuilderBackend: static chain context plus the UTXO and transaction lookup
operations, modelled as pure responses fixed per call. -/
structure Backend where
  networkID : Nat
  djtxAssetID : AssetID
  baseTxFee : Nat
  createSubnetTxFee : Nat
  utxos : Nat → List UTXO
  getTx : Nat → Option LookedUpTx

/-- common.Options, reduced to the fields the builder reads: the issuance-time
floor, the optional change-owner override and the memo. -/
structure Options where
  minIssuanceTime : Nat
  changeOwnerOverride : Option OutputOwners
  memo : List Nat

/-- common.Options.ChangeOwner: the override when present, else the default. -/
def Options.changeOwner (o : Options) (d : OutputOwners) : OutputOwners :=
  o.changeOwnerOverride.getD d

structure Builder where
  addrs : List Addr
  backend : Backend

/-- Modelled from the spec: ids.ShortSet.Peek is not part of the excerpted
source; the spec requires "a fixed, deterministic pick" of one address from
the controlled set, so the set is carried with a deterministic iteration
order and Peek returns its first element. -/
def Builder.peek (b : Builder) : Option Addr := b.addrs.head?

/-! ### builder.match -/

/-- The scanning loop of builder.match: walk the listed addresses from
position `i`, appending the position of each controlled address, stopping
once `need` indices have been collected. -/
def collectSigs (ctl : List Addr) : List Addr → Nat → Nat → List Nat
  | [], _, _ => []
  | a :: rest, i, need =>
    if need = 0 then []
    else if ctl.contains a then i :: collectSigs ctl rest (i + 1) (need - 1)
    else collectSigs ctl rest (i + 1) need

/-- builder.match: fails closed while the owners are still time-locked,
otherwise collects up to `threshold` signer indices in listed order and is
satisfied exactly when `threshold` of them were found. -/
def Builder.matchOwners (b : Builder) (owners : OutputOwners) (minIssuanceTime : Nat) :
    List Nat × Bool :=
  if owners.locktime > minIssuanceTime then ([], false)
  else
    let sigs := collectSigs b.addrs owners.addrs 0 owners.threshold
    (sigs, sigs.length == owners.threshold)

/-! ### builder.spend -/

/-- The working state of builder.spend: the two requirement maps (mutated in
place in the source) and the three accumulator slices. -/
structure SpendState where
  toBurn : AmountMap
  toStake : AmountMap
  inputs : List TransferableInput
  changeOutputs : List TransferableOutput
  stakeOutputs : List TransferableOutput
deriving DecidableEq, Repr

/-- Consumption of one still-locked stakeable UTXO in the locked pass: the
whole amount is taken as a StakeableLockIn input, `min(need, amt)` goes to a
stake-locked stake output and any surplus to a stake-locked change output,
both under the UTXO's original owners and lock time. -/
def lockedConsume (s : SpendState) (utxo : UTXO) (locktime amt : Nat)
    (owners : OutputOwners) (sigs : List Nat) : SpendState :=
  let remaining := mapGet s.toStake utxo.assetID
  let amountToStake := min remaining amt
  { toBurn := s.toBurn
    toStake := mapSet s.toStake utxo.assetID (remaining - amountToStake)
    inputs := s.inputs ++
      [⟨utxo.utxoID, utxo.assetID, .stakeableLock locktime amt sigs⟩]
    changeOutputs := s.changeOutputs ++
      (if amt - amountToStake > 0 then
        [⟨utxo.assetID, .stakeableLock locktime (amt - amountToStake) owners⟩]
      else [])
    stakeOutputs := s.stakeOutputs ++
      [⟨utxo.assetID, .stakeableLock locktime amountToStake owners⟩] }

/-- One iteration of the first (locked) pass of builder.spend. -/
def lockedPassStep (b : Builder) (minIssuanceTime : Nat) (s : SpendState)
    (utxo : UTXO) : Except BuildError SpendState :=
  if mapGet s.toStake utxo.assetID = 0 then .ok s
  else
    match utxo.out with
    | .stakeableLock locktime inner =>
      if minIssuanceTime ≥ locktime then .ok s
      else
        match inner with
        | .unknown => .error .unknownOutputType
        | .transfer amt owners =>
          if (b.matchOwners owners minIssuanceTime).2 then
            .ok (lockedConsume s utxo locktime amt owners
                  (b.matchOwners owners minIssuanceTime).1)
          else .ok s
    | _ => .ok s

/-- The unwrapping done at the head of the second pass: a plain transfer
output is used as-is, a matured stakeable wrapper is unwrapped, a still-locked
wrapper is skipped (`none`), and anything else is the unrecognized case. -/
def effectiveOut (minIssuanceTime : Nat) : UTXOOut → Option InnerOut
  | .transfer amt owners => some (.transfer amt owners)
  | .stakeableLock locktime inner =>
    if locktime > minIssuanceTime then none else some inner
  | .unknown => some .unknown

/-- Consumption of one UTXO in the unlocked pass: the whole amount is taken as
a plain input, burn is served first, then stake, and the leftover becomes an
unlocked change output; stake and change outputs go to the resolved change
owner. -/
def unlockedConsume (changeOwner : OutputOwners) (s : SpendState) (utxo : UTXO)
    (amt : Nat) (sigs : List Nat) : SpendState :=
  let remainingBurn := mapGet s.toBurn utxo.assetID
  let remainingStake := mapGet s.toStake utxo.assetID
  let amountToBurn := min remainingBurn amt
  let amountAvalibleToStake := amt - amountToBurn
  let amountToStake := min remainingStake amountAvalibleToStake
  { toBurn := mapSet s.toBurn utxo.assetID (remainingBurn - amountToBurn)
    toStake := mapSet s.toStake utxo.assetID (remainingStake - amountToStake)
    inputs := s.inputs ++ [⟨utxo.utxoID, utxo.assetID, .transfer amt sigs⟩]
    changeOutputs := s.changeOutputs ++
      (if amountAvalibleToStake - amountToStake > 0 then
        [⟨utxo.assetID,
          .transfer (amountAvalibleToStake - amountToStake) changeOwner⟩]
      else [])
    stakeOutputs := s.stakeOutputs ++
      (if amountToStake > 0 then
        [⟨utxo.assetID, .transfer amountToStake changeOwner⟩]
      else []) }

/-- One iteration of the second (unlocked) pass of builder.spend. -/
def unlockedPassStep (b : Builder) (minIssuanceTime : Nat)
    (changeOwner : OutputOwners) (s : SpendState) (utxo : UTXO) :
    Except BuildError SpendState :=
  if mapGet s.toStake utxo.assetID = 0 ∧ mapGet s.toBurn utxo.assetID = 0 then
    .ok s
  else
    match effectiveOut minIssuanceTime utxo.out with
    | none => .ok s
    | some .unknown => .error .unknownOutputType
    | some (.transfer amt owners) =>
      if (b.matchOwners owners minIssuanceTime).2 then
        .ok (unlockedConsume changeOwner s utxo amt
              (b.matchOwners owners minIssuanceTime).1)
      else .ok s

/-- The two strict passes of builder.spend over the backend's UTXO set. -/
def spendScan (b : Builder) (minIssuanceTime : Nat) (changeOwner : OutputOwners)
    (utxos : List UTXO) (s0 : SpendState) : Except BuildError SpendState :=
  match List.foldlM (lockedPassStep b minIssuanceTime) s0 utxos with
  | .error e => .error e
  | .ok s1 => List.foldlM (unlockedPassStep b minIssuanceTime changeOwner) s1 utxos

/-- The termination check of builder.spend: the stake map is scanned first,
then the burn map; the first entry left nonzero names the failure. -/
def checkAmounts (s : SpendState) : Except BuildError Unit :=
  match firstNonzero s.toStake with
  | some p => .error (.insufficientFundsStake p.1 p.2)
  | none =>
    match firstNonzero s.toBurn with
    | some p => .error (.insufficientFundsBurn p.1 p.2)
    | none => .ok ()

/-! ### Canonical orderings (djtx.SortTransferableInputs /
SortTransferableOutputs / ids.SortShortIDs / ids.SortIDs).

The sorting routines themselves live outside the excerpted source; they sort
by a total order (UTXO id for inputs, serialized byte representation for
outputs). We embed them as an insertion sort over explicit total orders. -/

/-- Inputs are ordered by UTXO id: transaction id first, output index second. -/
def inputLE (i j : TransferableInput) : Bool :=
  decide (i.utxoID.txID < j.utxoID.txID ∨
    (i.utxoID.txID = j.utxoID.txID ∧ i.utxoID.outputIndex ≤ j.utxoID.outputIndex))

def ownersKey (o : OutputOwners) : Nat :=
  Nat.pair o.locktime (Nat.pair o.threshold (o.addrs.foldr Nat.pair 0))

def outKindKey : OutKind → Nat
  | .transfer amt owners => Nat.pair 0 (Nat.pair amt (ownersKey owners))
  | .stakeableLock locktime amt owners =>
    Nat.pair 1 (Nat.pair locktime (Nat.pair amt (ownersKey owners)))

/-- Modelled from the spec: outputs are canonically sorted "by a total order
over their serialized output representation"; the codec byte encoding is not
part of the excerpted source, so the serialization order is modelled by an
explicit total order key over the output structure. -/
def outputKey (o : TransferableOutput) : Nat :=
  Nat.pair o.assetID (outKindKey o.out)

def outputLE (o1 o2 : TransferableOutput) : Bool :=
  Nat.ble (outputKey o1) (outputKey o2)

def natLE (a b : Nat) : Bool := Nat.ble a b

/-- Insert into a sorted list, keeping it sorted under `le`. -/
def insertSorted {α : Type} (le : α → α → Bool) (x : α) : List α → List α
  | [] => [x]
  | y :: ys => if le x y then x :: y :: ys else y :: insertSorted le x ys

/-- A deterministic comparison sort used to embed the canonical orderings. -/
def sortBy {α : Type} (le : α → α → Bool) : List α → List α
  | [] => []
  | x :: xs => insertSorted le x (sortBy le xs)

/-- builder.spend: fetch the platform chain's UTXO set, resolve the change
owner (failing when the controlled-address set is empty), run the two passes,
require both requirement maps to be exhausted, and return the canonically
sorted inputs, change outputs and stake outputs. -/
def Builder.spend (b : Builder) (amountsToBurn amountsToStake : AmountMap)
    (options : Options) :
    Except BuildError
      (List TransferableInput × List TransferableOutput × List TransferableOutput) :=
  match b.peek with
  | none => .error .noChangeAddress
  | some addr =>
    let changeOwner := options.changeOwner ⟨0, 1, [addr]⟩
    match spendScan b options.minIssuanceTime changeOwner
        (b.backend.utxos platformChainID)
        ⟨amountsToBurn, amountsToStake, [], [], []⟩ with
    | .error e => .error e
    | .ok s =>
      match checkAmounts s with
      | .error e => .error e
      | .ok _ =>
        .ok (sortBy inputLE s.inputs, sortBy outputLE s.changeOutputs,
             sortBy outputLE s.stakeOutputs)

/-! ### builder.authorizeSubnet -/

def Builder.authorizeSubnet (b : Builder) (subnetID : Nat) (options : Options) :
    Except BuildError (List Nat) :=
  match b.backend.getTx subnetID with
  | none => .error .txLookupFailed
  | some .otherTx => .error .wrongTxType
  | some (.createSubnetTx .unknownOwner) => .error .unknownOwnerType
  | some (.createSubnetTx (.secpOwners owner)) =>
    if (b.matchOwners owner options.minIssuanceTime).2 then
      .ok (b.matchOwners owner options.minIssuanceTime).1
    else .error .insufficientAuthorization

/-! ### Transaction bodies and the seven assemblers -/

structure BaseTx where
  networkID : Nat
  blockchainID : Nat
  ins : List TransferableInput
  outs : List TransferableOutput
  memo : List Nat
deriving DecidableEq, Repr

structure Validator where
  nodeID : Nat
  startTime : Nat
  endTime : Nat
  wght : Nat
deriving DecidableEq, Repr

structure SubnetValidator where
  validator : Validator
  subnet : Nat
deriving DecidableEq, Repr

structure AddValidatorTx where
  baseTx : BaseTx
  validator : Validator
  stake : List TransferableOutput
  rewardsOwner : OutputOwners
  shares : Nat
deriving DecidableEq, Repr

structure AddSubnetValidatorTx where
  baseTx : BaseTx
  validator : SubnetValidator
  subnetAuth : List Nat
deriving DecidableEq, Repr

structure AddDelegatorTx where
  baseTx : BaseTx
  validator : Validator
  stake : List TransferableOutput
  rewardsOwner : OutputOwners
deriving DecidableEq, Repr

structure CreateChainTx where
  baseTx : BaseTx
  subnetID : Nat
  chainName : String
  vmID : Nat
  fxIDs : List Nat
  genesisData : List Nat
  subnetAuth : List Nat
deriving DecidableEq, Repr

structure CreateSubnetTx where
  baseTx : BaseTx
  owner : OutputOwners
deriving DecidableEq, Repr

structure ImportTx where
  baseTx : BaseTx
  sourceChain : Nat
  importedInputs : List TransferableInput
deriving DecidableEq, Repr

structure ExportTx where
  baseTx : BaseTx
  destinationChain : Nat
  exportedOutputs : List TransferableOutput
deriving DecidableEq, Repr

def Builder.newAddValidatorTx (b : Builder) (validator : Validator)
    (rewardsOwner : OutputOwners) (shares : Nat) (options : Options) :
    Except BuildError AddValidatorTx :=
  let toBurn : AmountMap := []
  let toStake : AmountMap := [(b.backend.djtxAssetID, validator.wght)]
  match b.spend toBurn toStake options with
  | .error e => .error e
  | .ok (inputs, baseOutputs, stakeOutputs) =>
    .ok { baseTx := ⟨b.backend.networkID, platformChainID, inputs, baseOutputs,
                     options.memo⟩
          validator := validator
          stake := stakeOutputs
          rewardsOwner := { rewardsOwner with
                            addrs := sortBy natLE rewardsOwner.addrs }
          shares := shares }

def Builder.newAddSubnetValidatorTx (b : Builder) (validator : SubnetValidator)
    (options : Options) : Except BuildError AddSubnetValidatorTx :=
  let toBurn : AmountMap := [(b.backend.djtxAssetID, b.backend.createSubnetTxFee)]
  let toStake : AmountMap := []
  match b.spend toBurn toStake options with
  | .error e => .error e
  | .ok (inputs, outputs, _) =>
    match b.authorizeSubnet validator.subnet options with
    | .error e => .error e
    | .ok subnetAuth =>
      .ok { baseTx := ⟨b.backend.networkID, platformChainID, inputs, outputs,
                       options.memo⟩
            validator := validator
            subnetAuth := subnetAuth }

def Builder.newAddDelegatorTx (b : Builder) (validator : Validator)
    (rewardsOwner : OutputOwners) (options : Options) :
    Except BuildError AddDelegatorTx :=
  let toBurn : AmountMap := []
  let toStake : AmountMap := [(b.backend.djtxAssetID, validator.wght)]
  match b.spend toBurn toStake options with
  | .error e => .error e
  | .ok (inputs, baseOutputs, stakeOutputs) =>
    .ok { baseTx := ⟨b.backend.networkID, platformChainID, inputs, baseOutputs,
                     options.memo⟩
          validator := validator
          stake := stakeOutputs
          rewardsOwner := { rewardsOwner with
                            addrs := sortBy natLE rewardsOwner.addrs } }

def Builder.newCreateChainTx (b : Builder) (subnetID : Nat)
    (genesis : List Nat) (vmID : Nat) (fxIDs : List Nat) (chainName : String)
    (options : Options) : Except BuildError CreateChainTx :=
  let toBurn : AmountMap := [(b.backend.djtxAssetID, b.backend.createSubnetTxFee)]
  let toStake : AmountMap := []
  match b.spend toBurn toStake options with
  | .error e => .error e
  | .ok (inputs, outputs, _) =>
    match b.authorizeSubnet subnetID options with
    | .error e => .error e
    | .ok subnetAuth =>
      .ok { baseTx := ⟨b.backend.networkID, platformChainID, inputs, outputs,
                       options.memo⟩
            subnetID := subnetID
            chainName := chainName
            vmID := vmID
            fxIDs := sortBy natLE fxIDs
            genesisData := genesis
            subnetAuth := subnetAuth }

def Builder.newCreateSubnetTx (b : Builder) (owner : OutputOwners)
    (options : Options) : Except BuildError CreateSubnetTx :=
  let toBurn : AmountMap := [(b.backend.djtxAssetID, b.backend.createSubnetTxFee)]
  let toStake : AmountMap := []
  match b.spend toBurn toStake options with
  | .error e => .error e
  | .ok (inputs, outputs, _) =>
    .ok { baseTx := ⟨b.backend.networkID, platformChainID, inputs, outputs,
                     options.memo⟩
          owner := { owner with addrs := sortBy natLE owner.addrs } }

/-- One iteration of the import loop of builder.NewImportTx: skip non-native
assets, non-plain-transfer payloads and unmatched owners; otherwise take the
whole UTXO as an imported input and add its amount with overflow checking. -/
def importLoopStep (b : Builder) (minIssuanceTime : Nat) (djtxAssetID : AssetID)
    (acc : List TransferableInput × Nat) (utxo : UTXO) :
    Except BuildError (List TransferableInput × Nat) :=
  if utxo.assetID ≠ djtxAssetID then .ok acc
  else
    match utxo.out with
    | .transfer amt owners =>
      if (b.matchOwners owners minIssuanceTime).2 then
        match add64 acc.2 amt with
        | .error e => .error e
        | .ok newAmt =>
          .ok (acc.1 ++
            [⟨utxo.utxoID, utxo.assetID,
              .transfer amt (b.matchOwners owners minIssuanceTime).1⟩], newAmt)
      else .ok acc
    | _ => .ok acc

def Builder.newImportTx (b : Builder) (sourceChainID : Nat)
    (_toOwner : OutputOwners) (options : Options) : Except BuildError ImportTx :=
  let minIssuanceTime := options.minIssuanceTime
  let djtxAssetID := b.backend.djtxAssetID
  let txFee := b.backend.baseTxFee
  match List.foldlM (importLoopStep b minIssuanceTime djtxAssetID) ([], 0)
      (b.backend.utxos sourceChainID) with
  | .error e => .error e
  | .ok (importedInputsRaw, importedAmount) =>
    let importedInputs := sortBy inputLE importedInputsRaw
    if importedInputs.isEmpty then .error .insufficientFundsNoImportUTXOs
    else if importedAmount < txFee then
      match b.spend [(djtxAssetID, txFee - importedAmount)] [] options with
      | .error e => .error e
      | .ok (inputs, outputs, _) =>
        .ok { baseTx := ⟨b.backend.networkID, platformChainID, inputs, outputs,
                         options.memo⟩
              sourceChain := sourceChainID
              importedInputs := importedInputs }
    else if importedAmount > txFee then
      match b.peek with
      | none => .error .noChangeAddress
      | some addr =>
        let changeOwner := options.changeOwner ⟨0, 1, [addr]⟩
        .ok { baseTx := ⟨b.backend.networkID, platformChainID, [],
                         [⟨djtxAssetID,
                           .transfer (importedAmount - txFee) changeOwner⟩],
                         options.memo⟩
              sourceChain := sourceChainID
              importedInputs := importedInputs }
    else
      .ok { baseTx := ⟨b.backend.networkID, platformChainID, [], [],
                       options.memo⟩
            sourceChain := sourceChainID
            importedInputs := importedInputs }

/-- One iteration of the burn-requirement accumulation of builder.NewExportTx:
add the exported output's amount to its asset's burn requirement with
overflow checking. -/
def exportBurnStep (acc : AmountMap) (out : TransferableOutput) :
    Except BuildError AmountMap :=
  match add64 (mapGet acc out.assetID) out.out.amount with
  | .error e => .error e
  | .ok v => .ok (mapSet acc out.assetID v)

def Builder.newExportTx (b : Builder) (chainID : Nat)
    (outputs : List TransferableOutput) (options : Options) :
    Except BuildError ExportTx :=
  let init : AmountMap := [(b.backend.djtxAssetID, b.backend.baseTxFee)]
  match List.foldlM exportBurnStep init outputs with
  | .error e => .error e
  | .ok toBurn =>
    match b.spend toBurn [] options with
    | .error e => .error e
    | .ok (inputs, changeOutputs, _) =>
      .ok { baseTx := ⟨b.backend.networkID, platformChainID, inputs,
                       changeOutputs, options.memo⟩
            destinationChain := chainID
            exportedOutputs := sortBy outputLE outputs }

/-! ### Per-asset amount sums -/

/-- Total amount consumed for asset `a` by a list of transferable inputs. -/
def sumIns (a : AssetID) (l : List TransferableInput) : Nat :=
  (l.map (fun i => if i.assetID = a then i.inp.amount else 0)).sum

/-- Total amount produced for asset `a` by a list of transferable outputs. -/
def sumOuts (a : AssetID) (l : List TransferableOutput) : Nat :=
  (l.map (fun o => if o.assetID = a then o.out.amount else 0)).sum

theorem sumIns_nil (a : AssetID) : sumIns a [] = 0 := rfl

theorem sumOuts_nil (a : AssetID) : sumOuts a [] = 0 := rfl

theorem sumIns_single (a : AssetID) (i : TransferableInput) :
    sumIns a [i] = if i.assetID = a then i.inp.amount else 0 := by
  simp [sumIns]

theorem sumOuts_single (a : AssetID) (o : TransferableOutput) :
    sumOuts a [o] = if o.assetID = a then o.out.amount else 0 := by
  simp [sumOuts]

theorem sumOuts_ite (a : AssetID) (c : Prop) [Decidable c]
    (l1 l2 : List TransferableOutput) :
    sumOuts a (if c then l1 else l2) = if c then sumOuts a l1 else sumOuts a l2 := by
  split <;> rfl

theorem sumIns_append (a : AssetID) (l1 l2 : List TransferableInput) :
    sumIns a (l1 ++ l2) = sumIns a l1 + sumIns a l2 := by
  simp [sumIns]

theorem sumOuts_append (a : AssetID) (l1 l2 : List TransferableOutput) :
    sumOuts a (l1 ++ l2) = sumOuts a l1 + sumOuts a l2 := by
  simp [sumOuts]

theorem sumIns_perm (a : AssetID) {l1 l2 : List TransferableInput}
    (h : l1.Perm l2) : sumIns a l1 = sumIns a l2 :=
  (h.map _).sum_eq

theorem sumOuts_perm (a : AssetID) {l1 l2 : List TransferableOutput}
    (h : l1.Perm l2) : sumOuts a l1 = sumOuts a l2 :=
  (h.map _).sum_eq

/-! ### Association map lemmas -/

theorem mapGet_mapSet (m : AmountMap) (k a : AssetID) (v : Nat) :
    mapGet (mapSet m k v) a = if k = a then v else mapGet m a := by
  induction m with
  | nil => simp [mapGet, mapSet]
  | cons p rest ih =>
    by_cases hp : p.1 = k
    · subst hp
      simp only [mapSet, if_pos rfl, mapGet]
      by_cases hk : p.1 = a
      · simp [hk]
      · simp [hk]
    · simp only [mapSet, if_neg hp, mapGet, ih]
      by_cases ha : p.1 = a
      · have hk : ¬ k = a := fun h => hp (by rw [h, ha])
        simp [ha, hk]
      · simp [ha]

theorem firstNonzero_none (m : AmountMap) :
    firstNonzero m = none ↔ ∀ p ∈ m, p.2 = 0 := by
  induction m with
  | nil => simp [firstNonzero]
  | cons p rest ih =>
    by_cases hp : p.2 = 0
    · simp [firstNonzero, hp, ih]
    · simp [firstNonzero, hp]

theorem mapGet_eq_zero_of_entries (m : AmountMap) (h : ∀ p ∈ m, p.2 = 0)
    (a : AssetID) : mapGet m a = 0 := by
  induction m with
  | nil => rfl
  | cons p rest ih =>
    simp only [mapGet]
    split
    · exact h p (List.mem_cons_self p rest)
    · exact ih (fun q hq => h q (List.mem_cons_of_mem p hq))

theorem firstNonzero_mem (m : AmountMap) (p : AssetID × Nat)
    (h : firstNonzero m = some p) : p ∈ m ∧ p.2 ≠ 0 := by
  induction m with
  | nil => simp [firstNonzero] at h
  | cons q rest ih =>
    by_cases hq : q.2 = 0
    · simp only [firstNonzero, if_pos hq] at h
      obtain ⟨hm, hz⟩ := ih h
      exact ⟨List.mem_cons_of_mem q hm, hz⟩
    · simp only [firstNonzero, if_neg hq] at h
      injection h with h2
      subst h2
      exact ⟨List.mem_cons_self _ _, hq⟩

/-! ### Sorting lemmas -/

theorem insertSorted_perm {α : Type} (le : α → α → Bool) (x : α) (l : List α) :
    (insertSorted le x l).Perm (x :: l) := by
  induction l with
  | nil => exact List.Perm.refl _
  | cons y ys ih =>
    simp only [insertSorted]
    split
    · exact List.Perm.refl _
    · exact (ih.cons y).trans (List.Perm.swap x y ys)

theorem sortBy_perm {α : Type} (le : α → α → Bool) (l : List α) :
    (sortBy le l).Perm l := by
  induction l with
  | nil => exact List.Perm.refl _
  | cons x xs ih =>
    exact (insertSorted_perm le x (sortBy le xs)).trans (ih.cons x)

theorem pairwise_insertSorted {α : Type} (le : α → α → Bool)
    (htot : ∀ a b, (le a b || le b a) = true)
    (htrans : ∀ a b c, le a b = true → le b c = true → le a c = true)
    (x : α) : ∀ l : List α, l.Pairwise (fun a b => le a b = true) →
    (insertSorted le x l).Pairwise (fun a b => le a b = true) := by
  intro l
  induction l with
  | nil => intro _; simp [insertSorted]
  | cons y ys ih =>
    intro h
    rcases List.pairwise_cons.mp h with ⟨hy, hys⟩
    by_cases hxy : le x y = true
    · simp only [insertSorted, if_pos hxy]
      refine List.pairwise_cons.mpr ⟨?_, h⟩
      intro z hz
      rcases List.mem_cons.mp hz with hz1 | hz1
      · rw [hz1]; exact hxy
      · exact htrans x y z hxy (hy z hz1)
    · simp only [insertSorted, if_neg hxy]
      refine List.pairwise_cons.mpr ⟨?_, ih hys⟩
      intro z hz
      have hz2 : z ∈ x :: ys := (insertSorted_perm le x ys).mem_iff.mp hz
      rcases List.mem_cons.mp hz2 with hz3 | hz3
      · rw [hz3]
        cases hyx : le y x
        · exfalso
          have h3 := htot x y
          rw [hyx, Bool.or_false] at h3
          exact hxy h3
        · rfl
      · exact hy z hz3

theorem pairwise_sortBy {α : Type} (le : α → α → Bool)
    (htot : ∀ a b, (le a b || le b a) = true)
    (htrans : ∀ a b c, le a b = true → le b c = true → le a c = true)
    (l : List α) : (sortBy le l).Pairwise (fun a b => le a b = true) := by
  induction l with
  | nil => simp [sortBy]
  | cons x xs ih => exact pairwise_insertSorted le htot htrans x (sortBy le xs) ih

theorem inputLE_total (i j : TransferableInput) :
    (inputLE i j || inputLE j i) = true := by
  simp only [inputLE, Bool.or_eq_true, decide_eq_true_eq]
  omega

theorem inputLE_trans (i j k : TransferableInput) (h1 : inputLE i j = true)
    (h2 : inputLE j k = true) : inputLE i k = true := by
  simp only [inputLE, decide_eq_true_eq] at h1 h2 ⊢
  omega

theorem outputLE_total (o1 o2 : TransferableOutput) :
    (outputLE o1 o2 || outputLE o2 o1) = true := by
  simp only [outputLE, Bool.or_eq_true, Nat.ble_eq]
  omega

theorem outputLE_trans (o1 o2 o3 : TransferableOutput)
    (h1 : outputLE o1 o2 = true) (h2 : outputLE o2 o3 = true) :
    outputLE o1 o3 = true := by
  simp only [outputLE, Nat.ble_eq] at h1 h2 ⊢
  omega

/-! ### Generic fold lemmas over Except -/

theorem foldlM_ok_ind {α β : Type} (step : α → β → Except BuildError α)
    (P : α → Prop) (hstep : ∀ s x s', step s x = .ok s' → P s → P s') :
    ∀ (l : List β) (s s' : α), List.foldlM step s l = .ok s' → P s → P s' := by
  intro l
  induction l with
  | nil =>
    intro s s' h hp
    simp only [List.foldlM_nil] at h
    cases h
    exact hp
  | cons x xs ih =>
    intro s s' h hp
    rw [List.foldlM_cons] at h
    cases hx : step s x with
    | error e => rw [hx] at h; simp [Bind.bind, Except.bind] at h
    | ok s1 =>
      rw [hx] at h
      simp only [Bind.bind, Except.bind] at h
      exact ih s1 s' h (hstep s x s1 hx hp)

theorem foldlM_append_error {α β : Type} (step : α → β → Except BuildError α)
    (l1 : List β) (u : β) (l2 : List β) (s0 s : α) (e : BuildError)
    (hok : List.foldlM step s0 l1 = .ok s) (herr : step s u = .error e) :
    List.foldlM step s0 (l1 ++ u :: l2) = .error e := by
  induction l1 generalizing s0 with
  | nil =>
    simp only [List.foldlM_nil] at hok
    cases hok
    simp only [List.nil_append, List.foldlM_cons, herr]
    rfl
  | cons x xs ih =>
    rw [List.foldlM_cons] at hok
    cases hx : step s0 x with
    | error e2 => rw [hx] at hok; simp [Bind.bind, Except.bind] at hok
    | ok s1 =>
      rw [hx] at hok
      simp only [Bind.bind, Except.bind] at hok
      simp only [List.cons_append, List.foldlM_cons, hx, Bind.bind, Except.bind]
      exact ih s1 hok

/-! ### The spend conservation invariant -/

/-- The running conservation invariant of builder.spend: per asset, everything
consumed so far is accounted as change, stake or burn progress, and the stake
outputs exactly track the stake progress. -/
def SpendInv (B0 S0 : AmountMap) (s : SpendState) : Prop :=
  ∀ a : AssetID,
    sumIns a s.inputs + mapGet s.toBurn a
        = sumOuts a s.changeOutputs + sumOuts a s.stakeOutputs + mapGet B0 a
      ∧ sumOuts a s.stakeOutputs + mapGet s.toStake a = mapGet S0 a

theorem SpendInv_lockedConsume (B0 S0 : AmountMap) (s : SpendState)
    (utxo : UTXO) (lt amt : Nat) (owners : OutputOwners) (sigs : List Nat)
    (hs : SpendInv B0 S0 s) :
    SpendInv B0 S0 (lockedConsume s utxo lt amt owners sigs) := by
  intro a
  obtain ⟨h1, h2⟩ := hs a
  simp only [lockedConsume, sumIns_append, sumOuts_append, sumOuts_ite,
    mapGet_mapSet, sumIns_single, sumOuts_single, sumOuts_nil,
    InKind.amount, OutKind.amount]
  by_cases hk : utxo.assetID = a
  · subst hk
    constructor <;> (try split_ifs) <;> omega
  · simp only [if_neg hk]
    constructor <;> (try split_ifs) <;> omega

theorem SpendInv_unlockedConsume (B0 S0 : AmountMap) (cw : OutputOwners)
    (s : SpendState) (utxo : UTXO) (amt : Nat) (sigs : List Nat)
    (hs : SpendInv B0 S0 s) :
    SpendInv B0 S0 (unlockedConsume cw s utxo amt sigs) := by
  intro a
  obtain ⟨h1, h2⟩ := hs a
  simp only [unlockedConsume, sumIns_append, sumOuts_append, sumOuts_ite,
    mapGet_mapSet, sumIns_single, sumOuts_single, sumOuts_nil,
    InKind.amount, OutKind.amount]
  by_cases hk : utxo.assetID = a
  · subst hk
    constructor <;> (try split_ifs) <;> omega
  · simp only [if_neg hk]
    constructor <;> (try split_ifs) <;> omega

theorem lockedPassStep_inv (b : Builder) (mt : Nat) (B0 S0 : AmountMap)
    (s : SpendState) (utxo : UTXO) (s' : SpendState)
    (h : lockedPassStep b mt s utxo = .ok s') (hs : SpendInv B0 S0 s) :
    SpendInv B0 S0 s' := by
  unfold lockedPassStep at h
  repeat' split at h
  all_goals first
    | (cases h <;> exact hs)
    | (cases h <;> exact SpendInv_lockedConsume B0 S0 s utxo _ _ _ _ hs)

theorem unlockedPassStep_inv (b : Builder) (mt : Nat) (cw : OutputOwners)
    (B0 S0 : AmountMap) (s : SpendState) (utxo : UTXO) (s' : SpendState)
    (h : unlockedPassStep b mt cw s utxo = .ok s') (hs : SpendInv B0 S0 s) :
    SpendInv B0 S0 s' := by
  unfold unlockedPassStep at h
  repeat' split at h
  all_goals first
    | (cases h <;> exact hs)
    | (cases h <;> exact SpendInv_unlockedConsume B0 S0 cw s utxo _ _ hs)

theorem spendScan_inv (b : Builder) (mt : Nat) (cw : OutputOwners)
    (utxos : List UTXO) (B0 S0 : AmountMap) (s0 s : SpendState)
    (h : spendScan b mt cw utxos s0 = .ok s) (hs : SpendInv B0 S0 s0) :
    SpendInv B0 S0 s := by
  unfold spendScan at h
  cases h1 : List.foldlM (lockedPassStep b mt) s0 utxos with
  | error e => rw [h1] at h; cases h
  | ok s1 =>
    rw [h1] at h
    have hinv1 := foldlM_ok_ind (lockedPassStep b mt) (SpendInv B0 S0)
      (fun s x s' hx hp => lockedPassStep_inv b mt B0 S0 s x s' hx hp)
      utxos s0 s1 h1 hs
    exact foldlM_ok_ind (unlockedPassStep b mt cw) (SpendInv B0 S0)
      (fun s x s' hx hp => unlockedPassStep_inv b mt cw B0 S0 s x s' hx hp)
      utxos s1 s h hinv1

/-- Elimination of a successful builder.spend into its pipeline facts. -/
theorem spend_ok_elim (b : Builder) (B S : AmountMap) (opts : Options)
    (ins : List TransferableInput) (ch st : List TransferableOutput)
    (h : b.spend B S opts = .ok (ins, ch, st)) :
    ∃ addr s, b.peek = some addr ∧
      spendScan b opts.minIssuanceTime (opts.changeOwner ⟨0, 1, [addr]⟩)
        (b.backend.utxos platformChainID) ⟨B, S, [], [], []⟩ = .ok s ∧
      firstNonzero s.toStake = none ∧ firstNonzero s.toBurn = none ∧
      ins = sortBy inputLE s.inputs ∧ ch = sortBy outputLE s.changeOutputs ∧
      st = sortBy outputLE s.stakeOutputs := by
  unfold Builder.spend at h
  cases hp : b.peek with
  | none => rw [hp] at h; cases h
  | some addr =>
    rw [hp] at h
    dsimp only at h
    cases hscan : spendScan b opts.minIssuanceTime
        (opts.changeOwner ⟨0, 1, [addr]⟩) (b.backend.utxos platformChainID)
        ⟨B, S, [], [], []⟩ with
    | error e => rw [hscan] at h; cases h
    | ok s =>
      rw [hscan] at h
      dsimp only at h
      unfold checkAmounts at h
      cases hst : firstNonzero s.toStake with
      | some p => rw [hst] at h; cases h
      | none =>
        rw [hst] at h
        dsimp only at h
        cases hbu : firstNonzero s.toBurn with
        | some p => rw [hbu] at h; cases h
        | none =>
          rw [hbu] at h
          dsimp only at h
          cases h
          exact ⟨addr, s, rfl, hscan, hst, hbu, rfl, rfl, rfl⟩

/-- Conservation of builder.spend: per asset, the consumed input amounts equal
the change outputs plus the stake outputs plus the requested burn amount, and
the stake outputs sum to exactly the requested stake amount. -/
theorem spend_conservation (b : Builder) (B S : AmountMap) (opts : Options)
    (ins : List TransferableInput) (ch st : List TransferableOutput)
    (h : b.spend B S opts = .ok (ins, ch, st)) (a : AssetID) :
    sumIns a ins = sumOuts a ch + sumOuts a st + mapGet B a ∧
      sumOuts a st = mapGet S a := by
  obtain ⟨addr, s, _, hscan, hst, hbu, hins, hch, hstk⟩ :=
    spend_ok_elim b B S opts ins ch st h
  have hinv0 : SpendInv B S ⟨B, S, [], [], []⟩ := by
    intro a
    simp [sumIns, sumOuts]
  have hinv := spendScan_inv b opts.minIssuanceTime
    (opts.changeOwner ⟨0, 1, [addr]⟩) (b.backend.utxos platformChainID)
    B S ⟨B, S, [], [], []⟩ s hscan hinv0
  obtain ⟨h1, h2⟩ := hinv a
  have hz1 : mapGet s.toStake a = 0 :=
    mapGet_eq_zero_of_entries s.toStake ((firstNonzero_none s.toStake).mp hst) a
  have hz2 : mapGet s.toBurn a = 0 :=
    mapGet_eq_zero_of_entries s.toBurn ((firstNonzero_none s.toBurn).mp hbu) a
  rw [hins, hch, hstk]
  rw [sumIns_perm a (sortBy_perm inputLE s.inputs),
      sumOuts_perm a (sortBy_perm outputLE s.changeOutputs),
      sumOuts_perm a (sortBy_perm outputLE s.stakeOutputs)]
  omega

/-! ### Matcher characterization -/

theorem sumIns_cons (a : AssetID) (i : TransferableInput)
    (l : List TransferableInput) :
    sumIns a (i :: l) = (if i.assetID = a then i.inp.amount else 0) + sumIns a l := by
  simp [sumIns]

theorem sumOuts_cons (a : AssetID) (o : TransferableOutput)
    (l : List TransferableOutput) :
    sumOuts a (o :: l) = (if o.assetID = a then o.out.amount else 0) + sumOuts a l := by
  simp [sumOuts]

/-- The signer-index list the spec describes: the positional indices, in
listed order, of the controlled addresses, truncated to the first
`threshold` of them. -/
def specSigIndices (ctl : List Addr) (owners : OutputOwners) : List Nat :=
  ((((owners.addrs).enumFrom 0).filter (fun p => ctl.contains p.2)).map
    Prod.fst).take owners.threshold

theorem collectSigs_eq (ctl : List Addr) :
    ∀ (addrs : List Addr) (i need : Nat),
      collectSigs ctl addrs i need =
        (((addrs.enumFrom i).filter (fun p => ctl.contains p.2)).map
          Prod.fst).take need := by
  intro addrs
  induction addrs with
  | nil => intro i need; simp [collectSigs]
  | cons a rest ih =>
    intro i need
    match need with
    | 0 =>
      simp [collectSigs]
    | n + 1 =>
      simp only [collectSigs, Nat.succ_ne_zero, if_false]
      by_cases hm : a ∈ ctl
      · have hc : ctl.contains a = true := by simpa using hm
        simp [List.enumFrom, List.filter_cons, hc, hm, ih, List.take_succ_cons]
      · have hc : ctl.contains a = false := by simpa using hm
        simp [List.enumFrom, List.filter_cons, hc, hm, ih]

theorem length_filter_enumFrom (ctl : List Addr) :
    ∀ (addrs : List Addr) (i : Nat),
      ((addrs.enumFrom i).filter (fun p => ctl.contains p.2)).length =
        addrs.countP (fun a => ctl.contains a) := by
  intro addrs
  induction addrs with
  | nil => intro i; simp
  | cons a rest ih =>
    intro i
    by_cases hm : a ∈ ctl
    · have hc : ctl.contains a = true := by simpa using hm
      simp [List.enumFrom, List.filter_cons, hc, hm, List.countP_cons] <;>
        simpa using ih (i + 1)
    · have hc : ctl.contains a = false := by simpa using hm
      simp [List.enumFrom, List.filter_cons, hc, hm, List.countP_cons] <;>
        simpa using ih (i + 1)

/-- The number of signer indices the matcher can collect is the number of
listed addresses that the wallet controls, capped at the threshold. -/
theorem collectSigs_length (ctl : List Addr) (owners : OutputOwners) :
    (collectSigs ctl owners.addrs 0 owners.threshold).length =
      min owners.threshold (owners.addrs.countP (fun a => ctl.contains a)) := by
  rw [collectSigs_eq, List.length_take, List.length_map, length_filter_enumFrom]

/-! ### Concrete example data used by the witnesses -/

/-- A small concrete backend: native asset 1, base fee 10, subnet fee 5; the
platform chain holds one unlocked 10-unit native UTXO owned by address 7 and
chain 2 holds one unlocked 4-unit native UTXO owned by address 7. -/
def exBackend : Backend :=
  { networkID := 99
    djtxAssetID := 1
    baseTxFee := 10
    createSubnetTxFee := 5
    utxos := fun c =>
      if c = platformChainID then [⟨⟨50, 0⟩, 1, .transfer 10 ⟨0, 1, [7]⟩⟩]
      else if c = 2 then [⟨⟨100, 0⟩, 1, .transfer 4 ⟨0, 1, [7]⟩⟩]
      else []
    getTx := fun t =>
      if t = 42 then some (.createSubnetTx (.secpOwners ⟨0, 1, [7]⟩)) else none }

/-- A wallet controlling only address 7, over `exBackend`. -/
def exBuilder : Builder := ⟨[7], exBackend⟩

/-- Default options with issuance-time floor 5 and no change-owner override. -/
def exOpts : Options := ⟨5, none, []⟩

/-! ### Unfolding helpers for builder.spend -/

theorem spend_eq_of_scan (b : Builder) (B S : AmountMap) (opts : Options)
    (addr : Addr) (s : SpendState) (hp : b.peek = some addr)
    (hscan : spendScan b opts.minIssuanceTime (opts.changeOwner ⟨0, 1, [addr]⟩)
      (b.backend.utxos platformChainID) ⟨B, S, [], [], []⟩ = .ok s) :
    b.spend B S opts =
      match checkAmounts s with
      | .error e => .error e
      | .ok _ => .ok (sortBy inputLE s.inputs, sortBy outputLE s.changeOutputs,
          sortBy outputLE s.stakeOutputs) := by
  unfold Builder.spend
  rw [hp]
  dsimp only
  rw [hscan]

theorem spend_error_of_scan (b : Builder) (B S : AmountMap) (opts : Options)
    (addr : Addr) (e : BuildError) (hp : b.peek = some addr)
    (hscan : spendScan b opts.minIssuanceTime (opts.changeOwner ⟨0, 1, [addr]⟩)
      (b.backend.utxos platformChainID) ⟨B, S, [], [], []⟩ = .error e) :
    b.spend B S opts = .error e := by
  unfold Builder.spend
  rw [hp]
  dsimp only
  rw [hscan]

/-! ### Claim C3 -/

/-- Claim C3: builder.match is satisfied exactly when the minimum issuance
time has reached the owners' lock time and the wallet controls at least
`threshold` of the listed addresses (counted by listed position, so a
controlled address listed twice counts twice); when satisfied, the returned
signer indices are the positional indices, in listed order, of the first
`threshold` controlled addresses, and there are exactly `threshold` of them
(in particular a zero threshold with an expired lock is satisfied with an
empty index list). -/
theorem matchOwners_threshold_correct (b : Builder) (owners : OutputOwners)
    (mt : Nat) :
    ((b.matchOwners owners mt).2 = true ↔
      (owners.locktime ≤ mt ∧
        owners.threshold ≤ owners.addrs.countP (fun a => b.addrs.contains a))) ∧
    ((b.matchOwners owners mt).2 = true →
      (b.matchOwners owners mt).1 = specSigIndices b.addrs owners ∧
        (b.matchOwners owners mt).1.length = owners.threshold) := by
  unfold Builder.matchOwners
  by_cases hl : owners.locktime > mt
  · rw [if_pos hl]
    constructor
    · simp only [Bool.false_eq_true, false_iff]
      intro hc
      omega
    · intro hsat
      cases hsat
  · rw [if_neg hl]
    dsimp only
    constructor
    · rw [beq_iff_eq, collectSigs_length]
      constructor
      · intro h
        exact ⟨by omega, by omega⟩
      · intro h
        omega
    · intro hsat
      refine ⟨?_, ?_⟩
      · rw [collectSigs_eq]
        rfl
      · rw [beq_iff_eq] at hsat
        exact hsat

/-- Witness for C3: with controlled set {7}, owners (threshold 1 over
[8, 7], no lock), the matcher is satisfied and returns index 1. -/
theorem matchOwners_threshold_correct_witness :
    (exBuilder.matchOwners ⟨0, 1, [8, 7]⟩ 5).2 = true ∧
      (exBuilder.matchOwners ⟨0, 1, [8, 7]⟩ 5).1 = [1] := by
  refine ⟨by decide, ?_⟩
  have h := (matchOwners_threshold_correct exBuilder ⟨0, 1, [8, 7]⟩ 5).2 (by decide)
  rw [h.1]
  decide

/-! ### Claim C6 -/

/-- Claim C6: if after both passes some requirement map entry is nonzero, the
spend fails with InsufficientFunds naming a still-unmet asset and its exact
remaining amount (stake map scanned first, then burn map) and returns no
inputs or outputs; conversely a successful spend implies every entry of both
maps was driven to exactly zero. -/
theorem spend_exhaustion_failure :
    (∀ (b : Builder) (B S : AmountMap) (opts : Options) (addr : Addr)
        (s : SpendState),
      b.peek = some addr →
      spendScan b opts.minIssuanceTime (opts.changeOwner ⟨0, 1, [addr]⟩)
        (b.backend.utxos platformChainID) ⟨B, S, [], [], []⟩ = .ok s →
      (firstNonzero s.toStake ≠ none ∨ firstNonzero s.toBurn ≠ none) →
      ∃ aID amt, amt ≠ 0 ∧
        (((aID, amt) ∈ s.toStake ∧
            b.spend B S opts = .error (.insufficientFundsStake aID amt)) ∨
          ((aID, amt) ∈ s.toBurn ∧
            b.spend B S opts = .error (.insufficientFundsBurn aID amt)))) ∧
    (∀ (b : Builder) (B S : AmountMap) (opts : Options)
        (ins : List TransferableInput) (ch st : List TransferableOutput),
      b.spend B S opts = .ok (ins, ch, st) →
      ∃ addr s, b.peek = some addr ∧
        spendScan b opts.minIssuanceTime (opts.changeOwner ⟨0, 1, [addr]⟩)
          (b.backend.utxos platformChainID) ⟨B, S, [], [], []⟩ = .ok s ∧
        (∀ p ∈ s.toStake, p.2 = 0) ∧ (∀ p ∈ s.toBurn, p.2 = 0)) := by
  constructor
  · intro b B S opts addr s hp hscan hnz
    rw [spend_eq_of_scan b B S opts addr s hp hscan]
    unfold checkAmounts
    cases hst : firstNonzero s.toStake with
    | some p =>
      obtain ⟨hm, hz⟩ := firstNonzero_mem s.toStake p hst
      exact ⟨p.1, p.2, hz, Or.inl ⟨hm, rfl⟩⟩
    | none =>
      cases hbu : firstNonzero s.toBurn with
      | some p =>
        obtain ⟨hm, hz⟩ := firstNonzero_mem s.toBurn p hbu
        exact ⟨p.1, p.2, hz, Or.inr ⟨hm, rfl⟩⟩
      | none =>
        rcases hnz with h | h
        · exact absurd hst h
        · exact absurd hbu h
  · intro b B S opts ins ch st h
    obtain ⟨addr, s, hp, hscan, hst, hbu, _, _, _⟩ :=
      spend_ok_elim b B S opts ins ch st h
    exact ⟨addr, s, hp, hscan, (firstNonzero_none s.toStake).mp hst,
      (firstNonzero_none s.toBurn).mp hbu⟩

/-- Witness for C6: spending with an unmeetable burn requirement (asset 6,
amount 3) over `exBuilder` fails naming asset 6 and amount 3. -/
theorem spend_exhaustion_failure_witness :
    ∃ aID amt, amt ≠ 0 ∧
      (((aID, amt) ∈ ([(6, 3)] : AmountMap) ∧
          exBuilder.spend [(6, 3)] [] exOpts =
            .error (.insufficientFundsStake aID amt)) ∨
        ((aID, amt) ∈ ([(6, 3)] : AmountMap) ∧
          exBuilder.spend [(6, 3)] [] exOpts =
            .error (.insufficientFundsBurn aID amt))) := by
  have h := spend_exhaustion_failure.1 exBuilder [(6, 3)] [] exOpts 7
    ⟨[(6, 3)], [], [], [], []⟩ (by decide) (by rfl) (by decide)
  obtain ⟨aID, amt, hz, hcase⟩ := h
  exact ⟨aID, amt, hz, Or.inr (by simpa using hcase)⟩

/-! ### Claim C2 -/

/-- Claim C2: builder operations are deterministic functions of the
controlled-address set, the backend responses and the options — two
invocations with equal inputs return identical results — and a successful
spend returns its input list, change-output list and stake-output list in
the canonical sorted orders. -/
theorem builder_determinism_and_canonical_order :
    (∀ b1 b2 : Builder, b1.addrs = b2.addrs → b1.backend = b2.backend →
      (∀ B S opts, b1.spend B S opts = b2.spend B S opts) ∧
      (∀ v ro sh opts, b1.newAddValidatorTx v ro sh opts =
        b2.newAddValidatorTx v ro sh opts) ∧
      (∀ v opts, b1.newAddSubnetValidatorTx v opts =
        b2.newAddSubnetValidatorTx v opts) ∧
      (∀ v ro opts, b1.newAddDelegatorTx v ro opts =
        b2.newAddDelegatorTx v ro opts) ∧
      (∀ sn g vm fx nm opts, b1.newCreateChainTx sn g vm fx nm opts =
        b2.newCreateChainTx sn g vm fx nm opts) ∧
      (∀ ow opts, b1.newCreateSubnetTx ow opts = b2.newCreateSubnetTx ow opts) ∧
      (∀ src toOw opts, b1.newImportTx src toOw opts =
        b2.newImportTx src toOw opts) ∧
      (∀ chn outs opts, b1.newExportTx chn outs opts =
        b2.newExportTx chn outs opts)) ∧
    (∀ (b : Builder) (B S : AmountMap) (opts : Options)
        (ins : List TransferableInput) (ch st : List TransferableOutput),
      b.spend B S opts = .ok (ins, ch, st) →
      ins.Pairwise (fun i j => inputLE i j = true) ∧
        ch.Pairwise (fun o1 o2 => outputLE o1 o2 = true) ∧
        st.Pairwise (fun o1 o2 => outputLE o1 o2 = true)) := by
  constructor
  · intro b1 b2 h1 h2
    cases b1
    cases b2
    dsimp only at h1 h2
    subst h1
    subst h2
    exact ⟨fun _ _ _ => rfl, fun _ _ _ _ => rfl, fun _ _ => rfl,
      fun _ _ _ => rfl, fun _ _ _ _ _ _ => rfl, fun _ _ => rfl,
      fun _ _ _ => rfl, fun _ _ _ => rfl⟩
  · intro b B S opts ins ch st h
    obtain ⟨addr, s, _, _, _, _, hins, hch, hstk⟩ :=
      spend_ok_elim b B S opts ins ch st h
    subst hins
    subst hch
    subst hstk
    exact ⟨pairwise_sortBy inputLE inputLE_total inputLE_trans s.inputs,
      pairwise_sortBy outputLE outputLE_total outputLE_trans s.changeOutputs,
      pairwise_sortBy outputLE outputLE_total outputLE_trans s.stakeOutputs⟩

/-- Witness for C2: a concrete successful spend whose returned input list is
canonically ordered. -/
theorem builder_determinism_witness :
    exBuilder.spend [(1, 6)] [] exOpts =
        .ok ([⟨⟨50, 0⟩, 1, .transfer 10 [0]⟩],
          [⟨1, .transfer 4 ⟨0, 1, [7]⟩⟩], []) ∧
      ([⟨⟨50, 0⟩, 1, .transfer 10 [0]⟩] :
          List TransferableInput).Pairwise (fun i j => inputLE i j = true) := by
  refine ⟨by rfl, ?_⟩
  exact (builder_determinism_and_canonical_order.2 exBuilder [(1, 6)] [] exOpts
    _ _ _ (by rfl)).1

/-! ### Claim C10 -/

/-- Every plain (unlocked) transfer output among the accumulated change and
stake outputs is owned by the resolved change owner — the locked pass only
ever appends stake-locked outputs, the unlocked pass only appends transfer
outputs owned by the change owner. -/
def ChangeOwnedInv (cw : OutputOwners) (s : SpendState) : Prop :=
  ∀ o, (o ∈ s.changeOutputs ∨ o ∈ s.stakeOutputs) →
    ∀ v ow, o.out = OutKind.transfer v ow → ow = cw

theorem mem_ite_singleton {α : Type} {o x : α} {c : Prop} [Decidable c]
    (h : o ∈ (if c then [x] else [])) : o = x := by
  split at h
  · simpa using h
  · simp at h

theorem ChangeOwnedInv_lockedConsume (cw : OutputOwners) (s : SpendState)
    (utxo : UTXO) (lt amt : Nat) (owners : OutputOwners) (sigs : List Nat)
    (hs : ChangeOwnedInv cw s) :
    ChangeOwnedInv cw (lockedConsume s utxo lt amt owners sigs) := by
  intro o ho v ow hout
  simp only [lockedConsume, List.mem_append] at ho
  rcases ho with (ho | ho) | (ho | ho)
  · exact hs o (Or.inl ho) v ow hout
  · rw [mem_ite_singleton ho] at hout
    simp at hout
  · exact hs o (Or.inr ho) v ow hout
  · simp only [List.mem_singleton] at ho
    rw [ho] at hout
    simp at hout

theorem ChangeOwnedInv_unlockedConsume (cw : OutputOwners) (s : SpendState)
    (utxo : UTXO) (amt : Nat) (sigs : List Nat) (hs : ChangeOwnedInv cw s) :
    ChangeOwnedInv cw (unlockedConsume cw s utxo amt sigs) := by
  intro o ho v ow hout
  simp only [unlockedConsume, List.mem_append] at ho
  rcases ho with (ho | ho) | (ho | ho)
  · exact hs o (Or.inl ho) v ow hout
  · rw [mem_ite_singleton ho] at hout
    dsimp only at hout
    injection hout with h1 h2
    exact h2.symm
  · exact hs o (Or.inr ho) v ow hout
  · rw [mem_ite_singleton ho] at hout
    dsimp only at hout
    injection hout with h1 h2
    exact h2.symm

theorem lockedPassStep_changeOwned (b : Builder) (mt : Nat) (cw : OutputOwners)
    (s : SpendState) (utxo : UTXO) (s' : SpendState)
    (h : lockedPassStep b mt s utxo = .ok s') (hs : ChangeOwnedInv cw s) :
    ChangeOwnedInv cw s' := by
  unfold lockedPassStep at h
  repeat' split at h
  all_goals first
    | (cases h <;> exact hs)
    | (cases h <;> exact ChangeOwnedInv_lockedConsume cw s utxo _ _ _ _ hs)

theorem unlockedPassStep_changeOwned (b : Builder) (mt : Nat)
    (cw : OutputOwners) (s : SpendState) (utxo : UTXO) (s' : SpendState)
    (h : unlockedPassStep b mt cw s utxo = .ok s') (hs : ChangeOwnedInv cw s) :
    ChangeOwnedInv cw s' := by
  unfold unlockedPassStep at h
  repeat' split at h
  all_goals first
    | (cases h <;> exact hs)
    | (cases h <;> exact ChangeOwnedInv_unlockedConsume cw s utxo _ _ hs)

theorem spendScan_changeOwned (b : Builder) (mt : Nat) (cw : OutputOwners)
    (utxos : List UTXO) (s0 s : SpendState)
    (h : spendScan b mt cw utxos s0 = .ok s) (hs : ChangeOwnedInv cw s0) :
    ChangeOwnedInv cw s := by
  unfold spendScan at h
  cases h1 : List.foldlM (lockedPassStep b mt) s0 utxos with
  | error e => rw [h1] at h; cases h
  | ok s1 =>
    rw [h1] at h
    have hinv1 := foldlM_ok_ind (lockedPassStep b mt) (ChangeOwnedInv cw)
      (fun s x s' hx hp => lockedPassStep_changeOwned b mt cw s x s' hx hp)
      utxos s0 s1 h1 hs
    exact foldlM_ok_ind (unlockedPassStep b mt cw) (ChangeOwnedInv cw)
      (fun s x s' hx hp => unlockedPassStep_changeOwned b mt cw s x s' hx hp)
      utxos s1 s h hinv1

/-- Claim C10: every stake output and change output produced by the unlocked
pass — identifiable as the plain transfer outputs of a successful spend — is
owned by the resolved change owner: the caller-supplied override, or the
default threshold-1 owner over the wallet's fixed change-address pick. -/
theorem unlocked_outputs_use_change_owner :
    ∀ (b : Builder) (B S : AmountMap) (opts : Options) (addr : Addr)
      (ins : List TransferableInput) (ch st : List TransferableOutput),
      b.peek = some addr →
      b.spend B S opts = .ok (ins, ch, st) →
      ∀ o, (o ∈ ch ∨ o ∈ st) → ∀ v ow, o.out = OutKind.transfer v ow →
        ow = opts.changeOwner ⟨0, 1, [addr]⟩ := by
  intro b B S opts addr ins ch st hp h o ho v ow hout
  obtain ⟨addr2, s, hp2, hscan, _, _, hins, hch, hstk⟩ :=
    spend_ok_elim b B S opts ins ch st h
  rw [hp] at hp2
  injection hp2 with he
  subst he
  have hinv0 : ChangeOwnedInv (opts.changeOwner ⟨0, 1, [addr]⟩)
      ⟨B, S, [], [], []⟩ := by
    intro o ho2 v2 ow2 _
    rcases ho2 with h2 | h2 <;> simp at h2
  have hinv := spendScan_changeOwned b opts.minIssuanceTime
    (opts.changeOwner ⟨0, 1, [addr]⟩) (b.backend.utxos platformChainID)
    ⟨B, S, [], [], []⟩ s hscan hinv0
  apply hinv o _ v ow hout
  rcases ho with hm | hm
  · exact Or.inl ((sortBy_perm outputLE s.changeOutputs).mem_iff.mp (hch ▸ hm))
  · exact Or.inr ((sortBy_perm outputLE s.stakeOutputs).mem_iff.mp (hstk ▸ hm))

/-- Witness for C10: the change output of a concrete spend is owned by the
resolved change owner of the options. -/
theorem unlocked_outputs_use_change_owner_witness :
    (⟨0, 1, [7]⟩ : OutputOwners) = exOpts.changeOwner ⟨0, 1, [7]⟩ := by
  exact unlocked_outputs_use_change_owner exBuilder [(1, 6)] [] exOpts 7
    [⟨⟨50, 0⟩, 1, .transfer 10 [0]⟩] [⟨1, .transfer 4 ⟨0, 1, [7]⟩⟩] []
    (by rfl) (by rfl) ⟨1, .transfer 4 ⟨0, 1, [7]⟩⟩ (Or.inl (by decide)) 4
    ⟨0, 1, [7]⟩ (by rfl)

/-! ### Claim C4 -/

theorem unlockedConsume_stake_transfer (cw : OutputOwners) (s : SpendState)
    (utxo : UTXO) (amt : Nat) (sigs : List Nat) :
    ∀ o ∈ (unlockedConsume cw s utxo amt sigs).stakeOutputs,
      o ∈ s.stakeOutputs ∨ ∃ v ow, o.out = OutKind.transfer v ow := by
  intro o ho
  simp only [unlockedConsume, List.mem_append] at ho
  rcases ho with ho | ho
  · exact Or.inl ho
  · rw [mem_ite_singleton ho]
    exact Or.inr ⟨_, _, rfl⟩

theorem unlockedConsume_change_transfer (cw : OutputOwners) (s : SpendState)
    (utxo : UTXO) (amt : Nat) (sigs : List Nat) :
    ∀ o ∈ (unlockedConsume cw s utxo amt sigs).changeOutputs,
      o ∈ s.changeOutputs ∨ ∃ v ow, o.out = OutKind.transfer v ow := by
  intro o ho
  simp only [unlockedConsume, List.mem_append] at ho
  rcases ho with ho | ho
  · exact Or.inl ho
  · rw [mem_ite_singleton ho]
    exact Or.inr ⟨_, _, rfl⟩

/-- Claim C4: a stake-locked UTXO consumed while still inside its lock window
(locked pass) yields only stake-locked outputs carrying the identical lock
time and the UTXO's original owners, and its input wrapper carries the same
lock time; a UTXO consumed by the unlocked pass (plain, or matured
stake-locked) yields only plain unlocked outputs — the lock is never
reimposed. -/
theorem lock_preservation :
    (∀ (b : Builder) (mt : Nat) (s : SpendState) (utxo : UTXO)
        (s' : SpendState) (lt amt : Nat) (owners : OutputOwners),
      utxo.out = .stakeableLock lt (.transfer amt owners) → mt < lt →
      lockedPassStep b mt s utxo = .ok s' →
      (∀ i ∈ s'.inputs, i ∈ s.inputs ∨
        ∃ sigs, i = ⟨utxo.utxoID, utxo.assetID, .stakeableLock lt amt sigs⟩) ∧
      (∀ o ∈ s'.stakeOutputs, o ∈ s.stakeOutputs ∨
        ∃ v, v ≤ amt ∧ o = ⟨utxo.assetID, .stakeableLock lt v owners⟩) ∧
      (∀ o ∈ s'.changeOutputs, o ∈ s.changeOutputs ∨
        ∃ v, v ≤ amt ∧ o = ⟨utxo.assetID, .stakeableLock lt v owners⟩)) ∧
    (∀ (b : Builder) (mt : Nat) (cw : OutputOwners) (s : SpendState)
        (utxo : UTXO) (s' : SpendState),
      unlockedPassStep b mt cw s utxo = .ok s' →
      (∀ o ∈ s'.stakeOutputs, o ∈ s.stakeOutputs ∨
        ∃ v ow, o.out = OutKind.transfer v ow) ∧
      (∀ o ∈ s'.changeOutputs, o ∈ s.changeOutputs ∨
        ∃ v ow, o.out = OutKind.transfer v ow)) := by
  constructor
  · intro b mt s utxo s' lt amt owners hout hlt h
    unfold lockedPassStep at h
    rw [hout] at h
    by_cases h0 : mapGet s.toStake utxo.assetID = 0
    · rw [if_pos h0] at h
      cases h
      exact ⟨fun i hi => Or.inl hi, fun o ho => Or.inl ho,
        fun o ho => Or.inl ho⟩
    · rw [if_neg h0] at h
      try dsimp only at h
      rw [if_neg (by omega : ¬ mt ≥ lt)] at h
      try dsimp only at h
      split at h
      · injection h with h'
        subst h'
        refine ⟨?_, ?_, ?_⟩
        · intro i hi
          simp only [lockedConsume, List.mem_append, List.mem_singleton] at hi
          rcases hi with hi | hi
          · exact Or.inl hi
          · exact Or.inr ⟨_, hi⟩
        · intro o ho
          simp only [lockedConsume, List.mem_append, List.mem_singleton] at ho
          rcases ho with ho | ho
          · exact Or.inl ho
          · exact Or.inr ⟨min (mapGet s.toStake utxo.assetID) amt,
              Nat.min_le_right _ _, ho⟩
        · intro o ho
          simp only [lockedConsume, List.mem_append] at ho
          rcases ho with ho | ho
          · exact Or.inl ho
          · exact Or.inr ⟨amt - min (mapGet s.toStake utxo.assetID) amt,
              by omega, mem_ite_singleton ho⟩
      · cases h
        exact ⟨fun i hi => Or.inl hi, fun o ho => Or.inl ho,
          fun o ho => Or.inl ho⟩
  · intro b mt cw s utxo s' h
    unfold unlockedPassStep at h
    repeat' split at h
    all_goals first
      | (cases h <;> exact ⟨fun o ho => Or.inl ho, fun o ho => Or.inl ho⟩)
      | (cases h <;>
          exact ⟨unlockedConsume_stake_transfer cw s utxo _ _,
            unlockedConsume_change_transfer cw s utxo _ _⟩)

/-- Witness for C4: a concrete still-locked stakeable UTXO consumed by the
locked pass produces a stake output carrying the identical lock time and the
original owners. -/
theorem lock_preservation_witness :
    ∀ o ∈ (⟨[], [(1, 0)], [⟨⟨60, 0⟩, 1, .stakeableLock 9 3 [0]⟩],
        [], [⟨1, .stakeableLock 9 3 ⟨0, 1, [7]⟩⟩]⟩ : SpendState).stakeOutputs,
      o ∈ ([] : List TransferableOutput) ∨
        ∃ v, v ≤ 3 ∧ o = ⟨1, .stakeableLock 9 v ⟨0, 1, [7]⟩⟩ := by
  have h := (lock_preservation.1 exBuilder 5 ⟨[], [(1, 3)], [], [], []⟩
    ⟨⟨60, 0⟩, 1, .stakeableLock 9 (.transfer 3 ⟨0, 1, [7]⟩)⟩
    ⟨[], [(1, 0)], [⟨⟨60, 0⟩, 1, .stakeableLock 9 3 [0]⟩],
      [], [⟨1, .stakeableLock 9 3 ⟨0, 1, [7]⟩⟩]⟩
    9 3 ⟨0, 1, [7]⟩ (by rfl) (by decide) (by rfl))
  exact h.2.1

/-! ### Claim C5 -/

/-- Claim C5: a UTXO matched in the unlocked pass is consumed whole as one
plain input; its amount is apportioned burn-first (up to the remaining burn
requirement of its asset), then stake (up to the remaining stake
requirement), and any leftover becomes one unlocked change output to the
resolved change owner; the requirement maps are decremented by exactly those
amounts; and a UTXO whose asset needs neither burning nor staking is left
unconsumed (the state is unchanged). -/
theorem unlocked_pass_apportionment :
    (∀ (b : Builder) (mt : Nat) (cw : OutputOwners) (s : SpendState)
        (utxo : UTXO) (s' : SpendState) (amt : Nat) (owners : OutputOwners),
      effectiveOut mt utxo.out = some (.transfer amt owners) →
      ¬(mapGet s.toStake utxo.assetID = 0 ∧ mapGet s.toBurn utxo.assetID = 0) →
      (b.matchOwners owners mt).2 = true →
      unlockedPassStep b mt cw s utxo = .ok s' →
      s'.inputs = s.inputs ++
          [⟨utxo.utxoID, utxo.assetID,
            .transfer amt (b.matchOwners owners mt).1⟩] ∧
        mapGet s'.toBurn utxo.assetID =
          mapGet s.toBurn utxo.assetID -
            min (mapGet s.toBurn utxo.assetID) amt ∧
        mapGet s'.toStake utxo.assetID =
          mapGet s.toStake utxo.assetID -
            min (mapGet s.toStake utxo.assetID)
              (amt - min (mapGet s.toBurn utxo.assetID) amt) ∧
        s'.stakeOutputs = s.stakeOutputs ++
          (if min (mapGet s.toStake utxo.assetID)
              (amt - min (mapGet s.toBurn utxo.assetID) amt) > 0 then
            [⟨utxo.assetID, .transfer
              (min (mapGet s.toStake utxo.assetID)
                (amt - min (mapGet s.toBurn utxo.assetID) amt)) cw⟩]
          else []) ∧
        s'.changeOutputs = s.changeOutputs ++
          (if amt - min (mapGet s.toBurn utxo.assetID) amt -
              min (mapGet s.toStake utxo.assetID)
                (amt - min (mapGet s.toBurn utxo.assetID) amt) > 0 then
            [⟨utxo.assetID, .transfer
              (amt - min (mapGet s.toBurn utxo.assetID) amt -
                min (mapGet s.toStake utxo.assetID)
                  (amt - min (mapGet s.toBurn utxo.assetID) amt)) cw⟩]
          else [])) ∧
    (∀ (b : Builder) (mt : Nat) (cw : OutputOwners) (s : SpendState)
        (utxo : UTXO),
      mapGet s.toStake utxo.assetID = 0 → mapGet s.toBurn utxo.assetID = 0 →
      unlockedPassStep b mt cw s utxo = .ok s) := by
  constructor
  · intro b mt cw s utxo s' amt owners heff hne hmatch h
    unfold unlockedPassStep at h
    rw [if_neg hne, heff] at h
    dsimp only at h
    rw [if_pos hmatch] at h
    injection h with h'
    subst h'
    refine ⟨rfl, ?_, ?_, rfl, rfl⟩
    · simp [unlockedConsume, mapGet_mapSet]
    · simp [unlockedConsume, mapGet_mapSet]
  · intro b mt cw s utxo h1 h2
    unfold unlockedPassStep
    rw [if_pos ⟨h1, h2⟩]

/-- Witness for C5: the concrete unlocked-pass consumption of a 10-unit UTXO
against a remaining burn requirement of 6 consumes it whole as one input. -/
theorem unlocked_pass_apportionment_witness :
    (⟨[(1, 0)], [(1, 0)], [⟨⟨50, 0⟩, 1, .transfer 10 [0]⟩],
        [⟨1, .transfer 4 ⟨0, 1, [7]⟩⟩], []⟩ : SpendState).inputs =
      (⟨[(1, 6)], [], [], [], []⟩ : SpendState).inputs ++
        [⟨⟨50, 0⟩, 1, .transfer 10 [0]⟩] := by
  have h := (unlocked_pass_apportionment.1 exBuilder 5 ⟨0, 1, [7]⟩
    ⟨[(1, 6)], [], [], [], []⟩ ⟨⟨50, 0⟩, 1, .transfer 10 ⟨0, 1, [7]⟩⟩
    ⟨[(1, 0)], [(1, 0)], [⟨⟨50, 0⟩, 1, .transfer 10 [0]⟩],
      [⟨1, .transfer 4 ⟨0, 1, [7]⟩⟩], []⟩ 10 ⟨0, 1, [7]⟩
    (by rfl) (by decide) (by decide) (by rfl))
  exact h.1.trans (by decide)

/-! ### Claim C9 (corrected) -/

/-- Counterexample to C9 as stated: a spend whose scanned UTXO set contains
an unrecognized output shape nevertheless succeeds when that UTXO's asset has
no unmet requirement — the UTXO is skipped by the requirement guard before
its shape is ever inspected, so no UnknownOutputType error is raised. -/
theorem unknown_output_skipped_counterexample :
    Builder.spend
        ⟨[7], ⟨9, 1, 10, 5, fun _ => [⟨⟨3, 0⟩, 5, .unknown⟩], fun _ => none⟩⟩
        [] [] ⟨0, none, []⟩ = .ok ([], [], []) := by
  rfl

/-- Claim C9, amended: a UTXO of unrecognized output shape causes an
immediate UnknownOutputType failure when the pass that reaches it still has
an unmet requirement for its asset — in the locked pass, a still-locked
stakeable wrapper with unrecognized inner payload and unmet stake need; in
the unlocked pass, an unrecognized payload (after unwrapping a matured lock)
with unmet burn or stake need — and the error propagates through the rest of
the scan and out of builder.spend rather than being masked by later UTXOs;
a UTXO whose asset has no remaining requirement is skipped without
inspection. -/
theorem unknown_output_type_surfaced :
    (∀ (b : Builder) (mt : Nat) (s : SpendState) (utxo : UTXO) (lt : Nat),
      mapGet s.toStake utxo.assetID ≠ 0 →
      utxo.out = .stakeableLock lt .unknown → lt > mt →
      lockedPassStep b mt s utxo = .error .unknownOutputType) ∧
    (∀ (b : Builder) (mt : Nat) (cw : OutputOwners) (s : SpendState)
        (utxo : UTXO),
      ¬(mapGet s.toStake utxo.assetID = 0 ∧ mapGet s.toBurn utxo.assetID = 0) →
      effectiveOut mt utxo.out = some .unknown →
      unlockedPassStep b mt cw s utxo = .error .unknownOutputType) ∧
    (∀ (b : Builder) (mt : Nat) (cw : OutputOwners) (l1 : List UTXO)
        (u : UTXO) (l2 : List UTXO) (s0 s : SpendState) (e : BuildError),
      List.foldlM (lockedPassStep b mt) s0 l1 = .ok s →
      lockedPassStep b mt s u = .error e →
      spendScan b mt cw (l1 ++ u :: l2) s0 = .error e) ∧
    (∀ (b : Builder) (mt : Nat) (cw : OutputOwners) (l1 : List UTXO)
        (u : UTXO) (l2 : List UTXO) (s0 s1 s : SpendState) (e : BuildError),
      List.foldlM (lockedPassStep b mt) s0 (l1 ++ u :: l2) = .ok s1 →
      List.foldlM (unlockedPassStep b mt cw) s1 l1 = .ok s →
      unlockedPassStep b mt cw s u = .error e →
      spendScan b mt cw (l1 ++ u :: l2) s0 = .error e) ∧
    (∀ (b : Builder) (B S : AmountMap) (opts : Options) (addr : Addr)
        (e : BuildError),
      b.peek = some addr →
      spendScan b opts.minIssuanceTime (opts.changeOwner ⟨0, 1, [addr]⟩)
        (b.backend.utxos platformChainID) ⟨B, S, [], [], []⟩ = .error e →
      b.spend B S opts = .error e) := by
  refine ⟨?_, ?_, ?_, ?_, ?_⟩
  · intro b mt s utxo lt h0 hout hlt
    unfold lockedPassStep
    rw [if_neg h0, hout]
    dsimp only
    rw [if_neg (by omega : ¬ mt ≥ lt)]
  · intro b mt cw s utxo hne heff
    unfold unlockedPassStep
    rw [if_neg hne, heff]
  · intro b mt cw l1 u l2 s0 s e hok herr
    unfold spendScan
    rw [foldlM_append_error (lockedPassStep b mt) l1 u l2 s0 s e hok herr]
  · intro b mt cw l1 u l2 s0 s1 s e hfold1 hfold2 herr
    unfold spendScan
    rw [hfold1]
    exact foldlM_append_error (unlockedPassStep b mt cw) l1 u l2 s1 s e
      hfold2 herr
  · exact spend_error_of_scan

/-- Witness for the amended C9: an unrecognized UTXO whose asset still has an
unmet burn requirement fails the unlocked pass with UnknownOutputType. -/
theorem unknown_output_type_surfaced_witness :
    unlockedPassStep exBuilder 5 ⟨0, 1, [7]⟩ ⟨[(5, 2)], [], [], [], []⟩
        ⟨⟨3, 0⟩, 5, .unknown⟩ = .error .unknownOutputType := by
  exact unknown_output_type_surfaced.2.1 exBuilder 5 ⟨0, 1, [7]⟩
    ⟨[(5, 2)], [], [], [], []⟩ ⟨⟨3, 0⟩, 5, .unknown⟩ (by decide) (by rfl)

/-! ### Import-loop and export-accumulation lemmas -/

theorem sortBy_eq_nil_iff {α : Type} (le : α → α → Bool) (l : List α) :
    sortBy le l = [] ↔ l = [] := by
  constructor
  · intro h
    have hlen := (sortBy_perm le l).length_eq
    rw [h] at hlen
    exact List.length_eq_zero.mp hlen.symm
  · intro h
    subst h
    rfl

theorem isEmpty_false_of_ne_nil {α : Type} {l : List α} (h : l ≠ []) :
    l.isEmpty = false := by
  cases l
  · exact absurd rfl h
  · rfl

/-- The import loop accumulates exactly the native-asset amounts of the
inputs it collects; inputs for other assets are never collected. -/
theorem importLoop_sums (b : Builder) (mt : Nat) (native : AssetID) :
    ∀ (utxos : List UTXO) (acc res : List TransferableInput × Nat),
      List.foldlM (importLoopStep b mt native) acc utxos = .ok res →
      (sumIns native acc.1 = acc.2 ∧ ∀ a, a ≠ native → sumIns a acc.1 = 0) →
      sumIns native res.1 = res.2 ∧ ∀ a, a ≠ native → sumIns a res.1 = 0 := by
  intro utxos
  induction utxos with
  | nil =>
    intro acc res h hacc
    simp only [List.foldlM_nil] at h
    cases h
    exact hacc
  | cons u rest ih =>
    intro acc res h hacc
    rw [List.foldlM_cons] at h
    cases hstep : importLoopStep b mt native acc u with
    | error e =>
      rw [hstep] at h
      simp [Bind.bind, Except.bind] at h
    | ok acc1 =>
      rw [hstep] at h
      simp only [Bind.bind, Except.bind] at h
      refine ih acc1 res h ?_
      unfold importLoopStep at hstep
      by_cases hasset : u.assetID ≠ native
      · rw [if_pos hasset] at hstep
        cases hstep
        exact hacc
      · rw [if_neg hasset] at hstep
        push_neg at hasset
        cases hout : u.out with
        | transfer amt owners =>
          rw [hout] at hstep
          dsimp only at hstep
          split at hstep
          · cases hadd : add64 acc.2 amt with
            | error e =>
              rw [hadd] at hstep
              cases hstep
            | ok v =>
              rw [hadd] at hstep
              injection hstep with h2
              subst h2
              unfold add64 at hadd
              split at hadd
              · injection hadd with hv
                constructor
                · rw [sumIns_append, sumIns_single, hasset]
                  simp only [InKind.amount, if_pos]
                  have h5 := hacc.1
                  omega
                · intro a ha
                  rw [sumIns_append, sumIns_single, hasset]
                  simp only [if_neg (Ne.symm ha)]
                  simpa using hacc.2 a ha
              · cases hadd
          · cases hstep
            exact hacc
        | stakeableLock lt inner =>
          rw [hout] at hstep
          cases hstep
          exact hacc
        | unknown =>
          rw [hout] at hstep
          cases hstep
          exact hacc

/-- The export burn-requirement accumulation adds, per asset, exactly the
total exported amount on top of the initial map. -/
theorem exportBurn_fold :
    ∀ (outs : List TransferableOutput) (init m : AmountMap),
      List.foldlM exportBurnStep init outs = .ok m →
      ∀ a, mapGet m a = mapGet init a + sumOuts a outs := by
  intro outs
  induction outs with
  | nil =>
    intro init m h a
    simp only [List.foldlM_nil] at h
    cases h
    simp [sumOuts]
  | cons o rest ih =>
    intro init m h a
    rw [List.foldlM_cons] at h
    cases hstep : exportBurnStep init o with
    | error e =>
      rw [hstep] at h
      simp [Bind.bind, Except.bind] at h
    | ok m1 =>
      rw [hstep] at h
      simp only [Bind.bind, Except.bind] at h
      have hrec := ih m1 m h a
      unfold exportBurnStep at hstep
      cases hadd : add64 (mapGet init o.assetID) o.out.amount with
      | error e =>
        rw [hadd] at hstep
        cases hstep
      | ok v =>
        rw [hadd] at hstep
        injection hstep with h2
        subst h2
        unfold add64 at hadd
        split at hadd
        · injection hadd with hv
          rw [hrec, mapGet_mapSet, sumOuts_cons]
          by_cases ho : o.assetID = a
          · subst ho
            simp only [if_pos]
            omega
          · simp only [if_neg ho]
            omega
        · cases hadd

/-! ### Claim C7 -/

/-- Claim C7: with importedAmount the checked sum of the eligible matched
source-chain UTXOs (native asset, plain-transfer shape, matcher-satisfied):
zero eligible UTXOs fail with InsufficientFunds; a shortfall runs the local
spend planner to burn exactly fee - importedAmount; a surplus emits exactly
one unlocked change output of importedAmount - fee to the resolved change
owner with no local spend; an exact match performs neither. -/
theorem newImportTx_behavior :
    ∀ (b : Builder) (src : Nat) (toOwner : OutputOwners) (opts : Options)
      (impIns : List TransferableInput) (impAmt : Nat),
      List.foldlM (importLoopStep b opts.minIssuanceTime b.backend.djtxAssetID)
        ([], 0) (b.backend.utxos src) = .ok (impIns, impAmt) →
      sumIns b.backend.djtxAssetID impIns = impAmt ∧
      (impIns = [] → b.newImportTx src toOwner opts =
        .error .insufficientFundsNoImportUTXOs) ∧
      (impIns ≠ [] → impAmt < b.backend.baseTxFee →
        b.newImportTx src toOwner opts =
          (match b.spend
              [(b.backend.djtxAssetID, b.backend.baseTxFee - impAmt)] []
              opts with
          | .error e => .error e
          | .ok (ins, outs, _) =>
            .ok ⟨⟨b.backend.networkID, platformChainID, ins, outs, opts.memo⟩,
              src, sortBy inputLE impIns⟩)) ∧
      (impIns ≠ [] → impAmt > b.backend.baseTxFee →
        (b.peek = none → b.newImportTx src toOwner opts =
          .error .noChangeAddress) ∧
        (∀ addr, b.peek = some addr → b.newImportTx src toOwner opts =
          .ok ⟨⟨b.backend.networkID, platformChainID, [],
            [⟨b.backend.djtxAssetID,
              .transfer (impAmt - b.backend.baseTxFee)
                (opts.changeOwner ⟨0, 1, [addr]⟩)⟩], opts.memo⟩,
            src, sortBy inputLE impIns⟩)) ∧
      (impIns ≠ [] → impAmt = b.backend.baseTxFee →
        b.newImportTx src toOwner opts =
          .ok ⟨⟨b.backend.networkID, platformChainID, [], [], opts.memo⟩,
            src, sortBy inputLE impIns⟩) := by
  intro b src toOwner opts impIns impAmt hfold
  have hsum := importLoop_sums b opts.minIssuanceTime b.backend.djtxAssetID
    (b.backend.utxos src) ([], 0) (impIns, impAmt) hfold
    ⟨by simp [sumIns], fun a _ => by simp [sumIns]⟩
  refine ⟨hsum.1, ?_, ?_, ?_, ?_⟩
  · intro hnil
    subst hnil
    unfold Builder.newImportTx
    dsimp only
    rw [hfold]
    rfl
  · intro hne hlt
    unfold Builder.newImportTx
    dsimp only
    rw [hfold]
    dsimp only
    rw [if_neg (by simp [isEmpty_false_of_ne_nil
      ((not_iff_not.mpr (sortBy_eq_nil_iff inputLE impIns)).mpr hne)])]
    rw [if_pos hlt]
  · intro hne hgt
    constructor
    · intro hp
      unfold Builder.newImportTx
      dsimp only
      rw [hfold]
      dsimp only
      rw [if_neg (by simp [isEmpty_false_of_ne_nil
        ((not_iff_not.mpr (sortBy_eq_nil_iff inputLE impIns)).mpr hne)])]
      rw [if_neg (by omega), if_pos hgt, hp]
    · intro addr hp
      unfold Builder.newImportTx
      dsimp only
      rw [hfold]
      dsimp only
      rw [if_neg (by simp [isEmpty_false_of_ne_nil
        ((not_iff_not.mpr (sortBy_eq_nil_iff inputLE impIns)).mpr hne)])]
      rw [if_neg (by omega), if_pos hgt, hp]
  · intro hne heq
    unfold Builder.newImportTx
    dsimp only
    rw [hfold]
    dsimp only
    rw [if_neg (by simp [isEmpty_false_of_ne_nil
      ((not_iff_not.mpr (sortBy_eq_nil_iff inputLE impIns)).mpr hne)])]
    rw [if_neg (by omega), if_neg (by omega)]

/-- Witness for C7: the concrete shortfall import (imported 4 against fee 10)
takes the local-spend branch burning exactly 6. -/
theorem newImportTx_behavior_witness :
    exBuilder.newImportTx 2 ⟨0, 1, [7]⟩ exOpts =
      (match exBuilder.spend [(1, 6)] [] exOpts with
      | .error e => .error e
      | .ok (ins, outs, _) =>
        .ok ⟨⟨99, platformChainID, ins, outs, []⟩, 2,
          sortBy inputLE [⟨⟨100, 0⟩, 1, .transfer 4 [0]⟩]⟩) := by
  have h := (newImportTx_behavior exBuilder 2 ⟨0, 1, [7]⟩ exOpts
    [⟨⟨100, 0⟩, 1, .transfer 4 [0]⟩] 4 (by rfl)).2.2.1
    (by decide) (by decide)
  exact h

/-! ### Claim C8 (corrected) -/

/-- Counterexample to C8 as stated: in the spec's import-shortfall scenario
(fee 10, one eligible 4-unit foreign UTXO, one local unlocked 10-unit UTXO)
the built transaction does have a change output — the local spend consumes
the 10-unit UTXO, burns 6 and returns 4 as unlocked change, rather than
producing no change output. -/
theorem import_shortfall_change_counterexample :
    exBuilder.newImportTx 2 ⟨0, 1, [7]⟩ exOpts =
        .ok ⟨⟨99, 0, [⟨⟨50, 0⟩, 1, .transfer 10 [0]⟩],
          [⟨1, .transfer 4 ⟨0, 1, [7]⟩⟩], []⟩, 2,
          [⟨⟨100, 0⟩, 1, .transfer 4 [0]⟩]⟩ ∧
      ([⟨1, .transfer 4 ⟨0, 1, [7]⟩⟩] : List TransferableOutput) ≠ [] := by
  exact ⟨by rfl, by decide⟩

/-- Claim C8, amended: in the import-shortfall scenario the transaction has
one imported input covering 4, one local input consuming the whole 10-unit
UTXO, a local burn of exactly 6 (the fee shortfall), and one unlocked change
output of 4 native units to the change owner. -/
theorem import_shortfall_amended :
    exBuilder.newImportTx 2 ⟨0, 1, [7]⟩ exOpts =
        .ok ⟨⟨99, 0, [⟨⟨50, 0⟩, 1, .transfer 10 [0]⟩],
          [⟨1, .transfer 4 ⟨0, 1, [7]⟩⟩], []⟩, 2,
          [⟨⟨100, 0⟩, 1, .transfer 4 [0]⟩]⟩ ∧
      exBackend.baseTxFee - 4 = 6 ∧
      sumIns 1 [⟨⟨50, 0⟩, 1, .transfer 10 [0]⟩] =
        sumOuts 1 [⟨1, .transfer 4 ⟨0, 1, [7]⟩⟩] + 6 := by
  exact ⟨by rfl, by rfl, by decide⟩

/-! ### Per-kind conservation lemmas -/

theorem newAddValidatorTx_conservation (b : Builder) (v : Validator)
    (ro : OutputOwners) (sh : Nat) (opts : Options) (tx : AddValidatorTx)
    (h : b.newAddValidatorTx v ro sh opts = .ok tx) (a : AssetID) :
    sumIns a tx.baseTx.ins = sumOuts a tx.baseTx.outs + sumOuts a tx.stake := by
  unfold Builder.newAddValidatorTx at h
  dsimp only at h
  cases hs : b.spend [] [(b.backend.djtxAssetID, v.wght)] opts with
  | error e => rw [hs] at h; cases h
  | ok res =>
    obtain ⟨ins, ch, st⟩ := res
    rw [hs] at h
    injection h with h'
    subst h'
    have hc := spend_conservation b [] [(b.backend.djtxAssetID, v.wght)]
      opts ins ch st hs a
    simpa [mapGet] using hc.1

theorem newAddSubnetValidatorTx_conservation (b : Builder)
    (v : SubnetValidator) (opts : Options) (tx : AddSubnetValidatorTx)
    (h : b.newAddSubnetValidatorTx v opts = .ok tx) (a : AssetID) :
    sumIns a tx.baseTx.ins = sumOuts a tx.baseTx.outs +
      mapGet [(b.backend.djtxAssetID, b.backend.createSubnetTxFee)] a := by
  unfold Builder.newAddSubnetValidatorTx at h
  dsimp only at h
  cases hs : b.spend [(b.backend.djtxAssetID, b.backend.createSubnetTxFee)]
      [] opts with
  | error e => rw [hs] at h; cases h
  | ok res =>
    obtain ⟨ins, ch, st⟩ := res
    rw [hs] at h
    dsimp only at h
    cases hauth : b.authorizeSubnet v.subnet opts with
    | error e => rw [hauth] at h; cases h
    | ok sigs =>
      rw [hauth] at h
      injection h with h'
      subst h'
      have hc := spend_conservation b
        [(b.backend.djtxAssetID, b.backend.createSubnetTxFee)] [] opts
        ins ch st hs a
      have h2 := hc.2
      simp only [mapGet] at h2
      have h1 := hc.1
      dsimp only
      omega

theorem newAddDelegatorTx_conservation (b : Builder) (v : Validator)
    (ro : OutputOwners) (opts : Options) (tx : AddDelegatorTx)
    (h : b.newAddDelegatorTx v ro opts = .ok tx) (a : AssetID) :
    sumIns a tx.baseTx.ins = sumOuts a tx.baseTx.outs + sumOuts a tx.stake := by
  unfold Builder.newAddDelegatorTx at h
  dsimp only at h
  cases hs : b.spend [] [(b.backend.djtxAssetID, v.wght)] opts with
  | error e => rw [hs] at h; cases h
  | ok res =>
    obtain ⟨ins, ch, st⟩ := res
    rw [hs] at h
    injection h with h'
    subst h'
    have hc := spend_conservation b [] [(b.backend.djtxAssetID, v.wght)]
      opts ins ch st hs a
    simpa [mapGet] using hc.1

theorem newCreateChainTx_conservation (b : Builder) (sn : Nat)
    (g : List Nat) (vm : Nat) (fx : List Nat) (nm : String) (opts : Options)
    (tx : CreateChainTx) (h : b.newCreateChainTx sn g vm fx nm opts = .ok tx)
    (a : AssetID) :
    sumIns a tx.baseTx.ins = sumOuts a tx.baseTx.outs +
      mapGet [(b.backend.djtxAssetID, b.backend.createSubnetTxFee)] a := by
  unfold Builder.newCreateChainTx at h
  dsimp only at h
  cases hs : b.spend [(b.backend.djtxAssetID, b.backend.createSubnetTxFee)]
      [] opts with
  | error e => rw [hs] at h; cases h
  | ok res =>
    obtain ⟨ins, ch, st⟩ := res
    rw [hs] at h
    dsimp only at h
    cases hauth : b.authorizeSubnet sn opts with
    | error e => rw [hauth] at h; cases h
    | ok sigs =>
      rw [hauth] at h
      injection h with h'
      subst h'
      have hc := spend_conservation b
        [(b.backend.djtxAssetID, b.backend.createSubnetTxFee)] [] opts
        ins ch st hs a
      have h2 := hc.2
      simp only [mapGet] at h2
      have h1 := hc.1
      dsimp only
      omega

theorem newCreateSubnetTx_conservation (b : Builder) (ow : OutputOwners)
    (opts : Options) (tx : CreateSubnetTx)
    (h : b.newCreateSubnetTx ow opts = .ok tx) (a : AssetID) :
    sumIns a tx.baseTx.ins = sumOuts a tx.baseTx.outs +
      mapGet [(b.backend.djtxAssetID, b.backend.createSubnetTxFee)] a := by
  unfold Builder.newCreateSubnetTx at h
  dsimp only at h
  cases hs : b.spend [(b.backend.djtxAssetID, b.backend.createSubnetTxFee)]
      [] opts with
  | error e => rw [hs] at h; cases h
  | ok res =>
    obtain ⟨ins, ch, st⟩ := res
    rw [hs] at h
    injection h with h'
    subst h'
    have hc := spend_conservation b
      [(b.backend.djtxAssetID, b.backend.createSubnetTxFee)] [] opts
      ins ch st hs a
    have h2 := hc.2
    simp only [mapGet] at h2
    have h1 := hc.1
    dsimp only
    omega

theorem newExportTx_conservation (b : Builder) (chn : Nat)
    (outs : List TransferableOutput) (opts : Options) (tx : ExportTx)
    (h : b.newExportTx chn outs opts = .ok tx) (a : AssetID) :
    sumIns a tx.baseTx.ins =
      sumOuts a tx.baseTx.outs + sumOuts a tx.exportedOutputs +
        mapGet [(b.backend.djtxAssetID, b.backend.baseTxFee)] a := by
  unfold Builder.newExportTx at h
  dsimp only at h
  cases hfold : List.foldlM exportBurnStep
      [(b.backend.djtxAssetID, b.backend.baseTxFee)] outs with
  | error e => rw [hfold] at h; cases h
  | ok toBurn =>
    rw [hfold] at h
    dsimp only at h
    cases hs : b.spend toBurn [] opts with
    | error e => rw [hs] at h; cases h
    | ok res =>
      obtain ⟨ins, ch, st⟩ := res
      rw [hs] at h
      injection h with h'
      subst h'
      have hc := spend_conservation b toBurn [] opts ins ch st hs a
      have hb := exportBurn_fold outs
        [(b.backend.djtxAssetID, b.backend.baseTxFee)] toBurn hfold a
      have hex : sumOuts a (sortBy outputLE outs) = sumOuts a outs :=
        sumOuts_perm a (sortBy_perm outputLE outs)
      have h2 := hc.2
      simp only [mapGet] at h2
      have h1 := hc.1
      dsimp only
      rw [hex]
      omega

theorem newImportTx_conservation (b : Builder) (src : Nat)
    (toOwner : OutputOwners) (opts : Options) (tx : ImportTx)
    (h : b.newImportTx src toOwner opts = .ok tx) (a : AssetID) :
    sumIns a tx.baseTx.ins + sumIns a tx.importedInputs =
      sumOuts a tx.baseTx.outs +
        mapGet [(b.backend.djtxAssetID, b.backend.baseTxFee)] a := by
  unfold Builder.newImportTx at h
  dsimp only at h
  cases hfold : List.foldlM
      (importLoopStep b opts.minIssuanceTime b.backend.djtxAssetID)
      ([], 0) (b.backend.utxos src) with
  | error e => rw [hfold] at h; cases h
  | ok res =>
    obtain ⟨raw, amt⟩ := res
    rw [hfold] at h
    dsimp only at h
    have hsum := importLoop_sums b opts.minIssuanceTime b.backend.djtxAssetID
      (b.backend.utxos src) ([], 0) (raw, amt) hfold
      ⟨by simp [sumIns], fun a2 _ => by simp [sumIns]⟩
    dsimp only at hsum
    have hsorted : ∀ a2, sumIns a2 (sortBy inputLE raw) = sumIns a2 raw :=
      fun a2 => sumIns_perm a2 (sortBy_perm inputLE raw)
    by_cases hemp : (sortBy inputLE raw).isEmpty = true
    · rw [if_pos hemp] at h
      cases h
    · rw [if_neg hemp] at h
      by_cases hlt : amt < b.backend.baseTxFee
      · rw [if_pos hlt] at h
        cases hs : b.spend
            [(b.backend.djtxAssetID, b.backend.baseTxFee - amt)] [] opts with
        | error e => rw [hs] at h; cases h
        | ok res2 =>
          obtain ⟨ins, ch, st⟩ := res2
          rw [hs] at h
          injection h with h'
          subst h'
          have hc := spend_conservation b
            [(b.backend.djtxAssetID, b.backend.baseTxFee - amt)] [] opts
            ins ch st hs a
          have h2 := hc.2
          simp only [mapGet] at h2
          have h1 := hc.1
          simp only [mapGet] at h1
          dsimp only
          rw [hsorted a]
          simp only [mapGet]
          by_cases ha : b.backend.djtxAssetID = a
          · rw [if_pos ha] at h1 ⊢
            have hn := hsum.1
            rw [ha] at hn
            omega
          · rw [if_neg ha] at h1 ⊢
            have hz := hsum.2 a (fun he => ha he.symm)
            omega
      · rw [if_neg hlt] at h
        by_cases hgt : amt > b.backend.baseTxFee
        · rw [if_pos hgt] at h
          cases hp : b.peek with
          | none => rw [hp] at h; cases h
          | some addr =>
            rw [hp] at h
            dsimp only at h
            injection h with h'
            subst h'
            dsimp only
            rw [hsorted a]
            simp only [sumIns_nil, sumOuts_single, mapGet]
            by_cases ha : b.backend.djtxAssetID = a
            · rw [if_pos ha, if_pos ha]
              have hn := hsum.1
              rw [ha] at hn
              simp only [OutKind.amount]
              omega
            · rw [if_neg ha, if_neg ha]
              have hz := hsum.2 a (fun he => ha he.symm)
              omega
        · rw [if_neg hgt] at h
          injection h with h'
          subst h'
          have heq : amt = b.backend.baseTxFee := by omega
          dsimp only
          rw [hsorted a]
          simp only [sumIns_nil, sumOuts_nil, mapGet]
          by_cases ha : b.backend.djtxAssetID = a
          · rw [if_pos ha]
            have hn := hsum.1
            rw [ha] at hn
            omega
          · rw [if_neg ha]
            have hz := hsum.2 a (fun he => ha he.symm)
            omega

/-! ### Claim C1 -/

/-- Claim C1: for every successfully built transaction of each of the seven
kinds and every asset, the consumed input amounts (imported inputs included)
equal the produced output amounts (change, stake and exported outputs
included) plus the requested burn amount for that asset, in exact arithmetic;
and the checked additions that sum imported amounts and export burn
requirements surface overflow as a build failure instead of wrapping. -/
theorem transaction_conservation :
    (∀ (b : Builder) v ro sh opts tx,
      Builder.newAddValidatorTx b v ro sh opts = .ok tx →
      ∀ a, sumIns a tx.baseTx.ins =
        sumOuts a tx.baseTx.outs + sumOuts a tx.stake) ∧
    (∀ (b : Builder) v opts tx,
      Builder.newAddSubnetValidatorTx b v opts = .ok tx →
      ∀ a, sumIns a tx.baseTx.ins = sumOuts a tx.baseTx.outs +
        mapGet [(b.backend.djtxAssetID, b.backend.createSubnetTxFee)] a) ∧
    (∀ (b : Builder) v ro opts tx,
      Builder.newAddDelegatorTx b v ro opts = .ok tx →
      ∀ a, sumIns a tx.baseTx.ins =
        sumOuts a tx.baseTx.outs + sumOuts a tx.stake) ∧
    (∀ (b : Builder) sn g vm fx nm opts tx,
      Builder.newCreateChainTx b sn g vm fx nm opts = .ok tx →
      ∀ a, sumIns a tx.baseTx.ins = sumOuts a tx.baseTx.outs +
        mapGet [(b.backend.djtxAssetID, b.backend.createSubnetTxFee)] a) ∧
    (∀ (b : Builder) ow opts tx,
      Builder.newCreateSubnetTx b ow opts = .ok tx →
      ∀ a, sumIns a tx.baseTx.ins = sumOuts a tx.baseTx.outs +
        mapGet [(b.backend.djtxAssetID, b.backend.createSubnetTxFee)] a) ∧
    (∀ (b : Builder) src toOwner opts tx,
      Builder.newImportTx b src toOwner opts = .ok tx →
      ∀ a, sumIns a tx.baseTx.ins + sumIns a tx.importedInputs =
        sumOuts a tx.baseTx.outs +
          mapGet [(b.backend.djtxAssetID, b.backend.baseTxFee)] a) ∧
    (∀ (b : Builder) chn outs opts tx,
      Builder.newExportTx b chn outs opts = .ok tx →
      ∀ a, sumIns a tx.baseTx.ins =
        sumOuts a tx.baseTx.outs + sumOuts a tx.exportedOutputs +
          mapGet [(b.backend.djtxAssetID, b.backend.baseTxFee)] a) ∧
    (∀ x y : Nat, x + y > U64MAX → add64 x y = .error .addOverflow) ∧
    (∀ (b : Builder) src toOwner opts e,
      List.foldlM (importLoopStep b opts.minIssuanceTime b.backend.djtxAssetID)
        ([], 0) (b.backend.utxos src) = .error e →
      Builder.newImportTx b src toOwner opts = .error e) ∧
    (∀ (b : Builder) chn outs opts e,
      List.foldlM exportBurnStep
        [(b.backend.djtxAssetID, b.backend.baseTxFee)] outs = .error e →
      Builder.newExportTx b chn outs opts = .error e) := by
  refine ⟨?_, ?_, ?_, ?_, ?_, ?_, ?_, ?_, ?_, ?_⟩
  · intro b v ro sh opts tx h a
    exact newAddValidatorTx_conservation b v ro sh opts tx h a
  · intro b v opts tx h a
    exact newAddSubnetValidatorTx_conservation b v opts tx h a
  · intro b v ro opts tx h a
    exact newAddDelegatorTx_conservation b v ro opts tx h a
  · intro b sn g vm fx nm opts tx h a
    exact newCreateChainTx_conservation b sn g vm fx nm opts tx h a
  · intro b ow opts tx h a
    exact newCreateSubnetTx_conservation b ow opts tx h a
  · intro b src toOwner opts tx h a
    exact newImportTx_conservation b src toOwner opts tx h a
  · intro b chn outs opts tx h a
    exact newExportTx_conservation b chn outs opts tx h a
  · intro x y hxy
    unfold add64
    rw [if_neg (by omega)]
  · intro b src toOwner opts e hfold
    unfold Builder.newImportTx
    dsimp only
    rw [hfold]
  · intro b chn outs opts e hfold
    unfold Builder.newExportTx
    dsimp only
    rw [hfold]

/-- Witness for C1: conservation at a concrete add-validator build (one
10-unit input, 6-unit change, 4-unit stake, no burn). -/
theorem transaction_conservation_witness :
    sumIns 1 [⟨⟨50, 0⟩, 1, .transfer 10 [0]⟩] =
      sumOuts 1 [⟨1, .transfer 6 ⟨0, 1, [7]⟩⟩] +
        sumOuts 1 [⟨1, .transfer 4 ⟨0, 1, [7]⟩⟩] := by
  have h := transaction_conservation.1 exBuilder ⟨1, 2, 3, 4⟩ ⟨0, 1, [9, 8]⟩ 3
    exOpts
    ⟨⟨99, 0, [⟨⟨50, 0⟩, 1, .transfer 10 [0]⟩],
      [⟨1, .transfer 6 ⟨0, 1, [7]⟩⟩], []⟩,
      ⟨1, 2, 3, 4⟩, [⟨1, .transfer 4 ⟨0, 1, [7]⟩⟩], ⟨0, 1, [8, 9]⟩, 3⟩
    (by rfl) 1
  exact h

end PChain
